import Mathlib

/-!
# Verification of the SPI flash test harness (tb_top.cpp)

A shallow embedding of the harness helpers of `tb_top.cpp`: the clock driver
`tick`, the status wait `wait_status`, the strobe helpers `clear_status` and
`start_transfer`, the result oracle `check` / `check_bool`, and the handshake
channels `push_tx` / `pop_rx`.

The device under test (`Vspi_flash_top`, generated by Verilator) is a
parameter: an arbitrary state type with an arbitrary evaluation function and
output projections.  The harness globals (`sim_time`, `test_pass`,
`test_fail`), the input pins of the device object and the trace file are the
fields of one explicit state record that every helper transforms.

Integer conventions.  `sim_time` (`vluint64_t`) counts one per recorded sample
from 0 and is an unbounded natural here.  The tallies and the budgets are C
`int`s and are mathematical integers here; the countdown loops are modelled
for every `int` budget, the signed overflow of `timeout--` at the least `int`
being the only undefined step (result `none`).  Console output is not part of
the model.
-/

namespace TbTop

/-! ## Data model -/

/-- Input pins of the device object, the fields the harness assigns to. -/
structure Inputs where
  clk : Nat
  rstn : Nat
  command_i : Nat
  data_mode_i : Nat
  rd_wr_i : Nat
  dummy_cycle_i : Nat
  data_count_i : Nat
  has_addr_i : Nat
  prescaler_i : Nat
  clr_status_i : Nat
  start_i : Nat
  addr_i : Nat
  data_tx_i : Nat
  data_tx_valid_i : Nat
  data_rx_ready_i : Nat
  flush_tx_i : Nat
  flush_rx_i : Nat
deriving DecidableEq

/-- The device under test as the harness sees it: `eval` recomputes the
device (outputs and internal registers, together the state `σ`) from the
current input pins, and the outputs are read off the state.  An output is
asserted when it is nonzero, as in the C conditions on it. -/
structure Device (σ : Type) where
  eval : Inputs → σ → σ
  status_o : σ → Nat
  busy_o : σ → Nat
  tx_fifo_empty_o : σ → Nat
  data_tx_ready_o : σ → Nat
  data_rx_valid_o : σ → Nat
  data_rx_o : σ → Nat

/-- One record of the trace file: the timestamp handed to `tfp->dump` and the
device signals at that moment. -/
structure Sample (σ : Type) where
  time : Nat
  inputs : Inputs
  dut : σ
deriving DecidableEq

/-- The whole harness state: the device object (`inputs`, `dut`), the globals
`sim_time`, `test_pass`, `test_fail`, and the samples dumped so far. -/
structure TB (σ : Type) where
  inputs : Inputs
  dut : σ
  sim_time : Nat
  test_pass : Int
  test_fail : Int
  trace : List (Sample σ)
deriving DecidableEq

variable {σ : Type}

/-- An assignment to input pins of the device object (`dut->x = v;`): the
pins become `i`, nothing else changes. -/
def set_inputs (i : Inputs) (s : TB σ) : TB σ :=
  { s with inputs := i }

/-! ## Clock driver -/

/-- One half-cycle: `dut->clk = level; dut->eval(); tfp->dump(sim_time++);`. -/
def clk_phase (dev : Device σ) (level : Nat) (s : TB σ) : TB σ :=
  let i : Inputs := { s.inputs with clk := level }
  let d : σ := dev.eval i s.dut
  { s with
    inputs := i
    dut := d
    trace := s.trace ++ [{ time := s.sim_time, inputs := i, dut := d }]
    sim_time := s.sim_time + 1 }

/-- The body of the `for` loop of `tick`, run `n` times. -/
def tick_loop (dev : Device σ) : Nat → TB σ → TB σ
  | 0, s => s
  | n + 1, s => tick_loop dev n (clk_phase dev 1 (clk_phase dev 0 s))

/-- The function `tick(tick_val, dut, tfp)`: the loop `for (i = 0; i < tick_val; i++)`
runs `tick_val` times, and not at all when `tick_val <= 0`. -/
def tick (dev : Device σ) (tick_val : Int) (s : TB σ) : TB σ :=
  tick_loop dev tick_val.toNat s

/-! ## Status wait -/

/-- The loop `while (timeout--)` of `wait_status` entered with a budget
`timeout >= 0`, followed by the timeout report.  With the budget at 0 the
condition is false and `test_fail++` runs. -/
def wait_status_loop (dev : Device σ) : Nat → TB σ → TB σ
  | 0, s => { s with test_fail := s.test_fail + 1 }
  | t + 1, s =>
    let s1 := clk_phase dev 0 s
    if dev.status_o s1.dut ≠ 0 then
      clk_phase dev 1 s1
    else
      wait_status_loop dev t (clk_phase dev 1 s1)

/-- The same loop entered with a negative budget: `timeout--` is then never
zero, so the loop can only leave through the `return`; `room` is the number of
decrements left before `timeout` is the least `int`, where `timeout--`
overflows (undefined, `none`). -/
def wait_status_neg (dev : Device σ) : Nat → TB σ → Option (TB σ)
  | 0, _ => none
  | room + 1, s =>
    let s1 := clk_phase dev 0 s
    if dev.status_o s1.dut ≠ 0 then
      some (clk_phase dev 1 s1)
    else
      wait_status_neg dev room (clk_phase dev 1 s1)

/-- The function `wait_status(dut, tfp, timeout)`. -/
def wait_status (dev : Device σ) (timeout : Int) (s : TB σ) : Option (TB σ) :=
  if 0 ≤ timeout then some (wait_status_loop dev timeout.toNat s)
  else wait_status_neg dev (timeout + 2 ^ 31).toNat s

/-! ## Strobe helpers -/

/-- The function `clear_status(dut, tfp)`. -/
def clear_status (dev : Device σ) (s : TB σ) : TB σ :=
  let s1 := set_inputs { s.inputs with clr_status_i := 1 } s
  let s2 := tick dev 1 s1
  let s3 := set_inputs { s2.inputs with clr_status_i := 0 } s2
  tick dev 2 s3

/-- The function `start_transfer(dut, tfp)`. -/
def start_transfer (dev : Device σ) (s : TB σ) : TB σ :=
  let s1 := set_inputs { s.inputs with start_i := 1 } s
  let s2 := tick dev 1 s1
  set_inputs { s2.inputs with start_i := 0 } s2

/-! ## Result oracle -/

/-- The function `check(test_name, got, expected)` on 32-bit words. -/
def check (got expected : Nat) (s : TB σ) : TB σ :=
  if got = expected then { s with test_pass := s.test_pass + 1 }
  else { s with test_fail := s.test_fail + 1 }

/-- The function `check_bool(test_name, got, expected)`. -/
def check_bool (got expected : Bool) (s : TB σ) : TB σ :=
  if got = expected then { s with test_pass := s.test_pass + 1 }
  else { s with test_fail := s.test_fail + 1 }

/-! ## Handshake channels -/

/-- The loop `while (!dut->data_tx_ready_o && timeout--) tick(1, dut, tfp);`
of `push_tx` with `timeout` attempts left.  The local `timeout` is dead after
the loop, so only the state is returned. -/
def push_tx_loop (dev : Device σ) : Nat → TB σ → TB σ
  | 0, s => s
  | t + 1, s =>
    if dev.data_tx_ready_o s.dut ≠ 0 then s
    else push_tx_loop dev t (tick dev 1 s)

/-- The function `push_tx(dut, tfp, data)`. -/
def push_tx (dev : Device σ) (data : Nat) (s : TB σ) : TB σ :=
  let s1 := set_inputs { s.inputs with data_tx_i := data, data_tx_valid_i := 1 } s
  let s2 := push_tx_loop dev 1000 s1
  let s3 := tick dev 1 s2
  set_inputs { s3.inputs with data_tx_valid_i := 0 } s3

/-- The loop `while (!dut->data_rx_valid_o && timeout--) tick(1, dut, tfp);`
of `pop_rx` with `timeout` attempts left, returning the value of the local
`timeout` on exit and the state.  The left operand is tested first: when
valid is asserted `timeout` is not decremented; when it is not and `timeout`
is 0, the decrement leaves -1. -/
def pop_rx_loop (dev : Device σ) : Nat → TB σ → Int × TB σ
  | 0, s => if dev.data_rx_valid_o s.dut ≠ 0 then (0, s) else (-1, s)
  | t + 1, s =>
    if dev.data_rx_valid_o s.dut ≠ 0 then ((t : Int) + 1, s)
    else pop_rx_loop dev t (tick dev 1 s)

/-- The function `pop_rx(dut, tfp)`: the returned word and the state. -/
def pop_rx (dev : Device σ) (s : TB σ) : Nat × TB σ :=
  let s1 := set_inputs { s.inputs with data_rx_ready_i := 1 } s
  let r := pop_rx_loop dev 2000 s1
  let timeout := r.1
  let s2 := r.2
  if timeout ≤ 0 then
    (0xDEAD0000, set_inputs { s2.inputs with data_rx_ready_i := 0 } s2)
  else
    let data := dev.data_rx_o s2.dut
    let s3 := tick dev 1 s2
    (data, set_inputs { s3.inputs with data_rx_ready_i := 0 } s3)

/-! ## Observations used in the statements -/

/-- One full clock cycle: low phase, then high phase. -/
def cycle (dev : Device σ) (s : TB σ) : TB σ :=
  clk_phase dev 1 (clk_phase dev 0 s)

/-- The two samples one cycle appends to the trace: the low-phase sample at
the current `sim_time` and the high-phase sample one later. -/
def cycle_samples (dev : Device σ) (s : TB σ) : List (Sample σ) :=
  [ { time := s.sim_time
      inputs := { s.inputs with clk := 0 }
      dut := dev.eval { s.inputs with clk := 0 } s.dut },
    { time := s.sim_time + 1
      inputs := { s.inputs with clk := 1 }
      dut := dev.eval { s.inputs with clk := 1 }
        (dev.eval { s.inputs with clk := 0 } s.dut) } ]


/-- The value of `status_o` that the `if` of `wait_status` reads in cycle `k`
(`k >= 1`) of a wait started in `s`: the output after the low-phase
evaluation that follows `k - 1` complete cycles. -/
def status_low (dev : Device σ) (s : TB σ) (k : Nat) : Nat :=
  dev.status_o (clk_phase dev 0 (tick dev ((k : Int) - 1) s)).dut

/-- The state right after the first assignment of `pop_rx`,
`dut->data_rx_ready_i = 1`. -/
def rx_ready_set (s : TB σ) : TB σ :=
  set_inputs { s.inputs with data_rx_ready_i := 1 } s

/-- The last assignment of `pop_rx`, `dut->data_rx_ready_i = 0`. -/
def rx_ready_clear (s : TB σ) : TB σ :=
  set_inputs { s.inputs with data_rx_ready_i := 0 } s

/-- The value of `data_rx_valid_o` that the loop condition of `pop_rx` reads
after `j` advances (`j = 0` is the check before the first advance). -/
def rx_valid_poll (dev : Device σ) (s : TB σ) (j : Nat) : Nat :=
  dev.data_rx_valid_o (tick dev j (rx_ready_set s)).dut

/-- The state right after the first two assignments of `push_tx`,
`dut->data_tx_i = data; dut->data_tx_valid_i = 1`. -/
def tx_offer (data : Nat) (s : TB σ) : TB σ :=
  set_inputs { s.inputs with data_tx_i := data, data_tx_valid_i := 1 } s

/-- The last assignment of `push_tx`, `dut->data_tx_valid_i = 0`. -/
def tx_valid_clear (s : TB σ) : TB σ :=
  set_inputs { s.inputs with data_tx_valid_i := 0 } s

/-- The value of `data_tx_ready_o` that the loop condition of `push_tx` reads
after `j` advances (`j = 0` is the check before the first advance). -/
def tx_ready_poll (dev : Device σ) (data : Nat) (s : TB σ) (j : Nat) : Nat :=
  dev.data_tx_ready_o (tick dev j (tx_offer data s)).dut

/-- The samples that `n` cycles from `s` append to the trace, in order. -/
def tick_samples (dev : Device σ) : Nat → TB σ → List (Sample σ)
  | 0, _ => []
  | n + 1, s => cycle_samples dev s ++ tick_samples dev n (cycle dev s)

/-- The samples recorded when the device, in state `d` at time `t`, is
evaluated once with each pin setting of the list in turn, each evaluation
followed by its dump. -/
def eval_chain (dev : Device σ) : List Inputs → Nat → σ → List (Sample σ)
  | [], _, _ => []
  | i :: rest, t, d =>
    { time := t, inputs := i, dut := dev.eval i d } :: eval_chain dev rest (t + 1) (dev.eval i d)

/-- One call of the result oracle with its arguments. -/
inductive CheckCall where
  | word (got expected : Nat)
  | flag (got expected : Bool)
deriving DecidableEq

/-- Whether the call compares two equal values. -/
def CheckCall.isMatch : CheckCall → Bool
  | .word got expected => decide (got = expected)
  | .flag got expected => decide (got = expected)

/-- Run one oracle call: `check` for words, `check_bool` for flags. -/
def CheckCall.apply : CheckCall → TB σ → TB σ
  | .word got expected, s => check got expected s
  | .flag got expected, s => check_bool got expected s

/-- Run a sequence of oracle calls one after the other. -/
def run_checks : List CheckCall → TB σ → TB σ
  | [], s => s
  | c :: cs, s => run_checks cs (c.apply s)

/-! ## Runs of the harness -/

/-- One harness operation of a run, with the argument values it is called
with: an assignment to input pins, or a call of one of the helpers. -/
inductive Op where
  | assign (i : Inputs)
  | tick (tick_val : Int)
  | wait_status (timeout : Int)
  | clear_status
  | start_transfer
  | push_tx (data : Nat)
  | pop_rx
  | check (got expected : Nat)
  | check_bool (got expected : Bool)
deriving DecidableEq

/-- Perform one operation; `none` only for a `wait_status` whose negative
budget overflows. -/
def step (dev : Device σ) : Op → TB σ → Option (TB σ)
  | .assign i, s => some (set_inputs i s)
  | .tick tick_val, s => some (tick dev tick_val s)
  | .wait_status timeout, s => wait_status dev timeout s
  | .clear_status, s => some (clear_status dev s)
  | .start_transfer, s => some (start_transfer dev s)
  | .push_tx data, s => some (push_tx dev data s)
  | .pop_rx, s => some (pop_rx dev s).2
  | .check got expected, s => some (check got expected s)
  | .check_bool got expected, s => some (check_bool got expected s)

/-- Perform a sequence of operations in order. -/
def run (dev : Device σ) : List Op → TB σ → Option (TB σ)
  | [], s => some s
  | op :: ops, s => (step dev op s).bind (run dev ops)

/-- The budget of a `wait_status` call is not negative. -/
def budget_ok : Op → Bool
  | .wait_status timeout => decide (0 ≤ timeout)
  | _ => true

/-- Whether the operation, performed in state `s`, is a mismatching check or
a `wait_status` that sees `status_o` in none of the cycles of its budget. -/
def records_failure (dev : Device σ) : Op → TB σ → Bool
  | .wait_status timeout, s =>
    decide (0 ≤ timeout ∧ ∀ k, k < timeout.toNat → status_low dev s (k + 1) = 0)
  | .check got expected, _ => decide (got ≠ expected)
  | .check_bool got expected, _ => decide (got ≠ expected)
  | _, _ => false

/-- The number of operations of the run that record a failure. -/
def failures (dev : Device σ) : List Op → TB σ → Nat
  | [], _ => 0
  | op :: ops, s =>
    (if records_failure dev op s then 1 else 0)
      + (match step dev op s with
         | some r => failures dev ops r
         | none => 0)

/-- The end of `main` after the summary line: `tick(20, dut, tfp)`, the
clean-up, and `return (test_fail > 0) ? 1 : 0`. -/
def main_exit_code (dev : Device σ) (s : TB σ) : Int :=
  let s1 := tick dev 20 s
  if s1.test_fail > 0 then 1 else 0

/-- The trace of `r` extends the trace of `s` by samples stamped
`s.sim_time, s.sim_time + 1, ...` in order, and `sim_time` has advanced by
their number. -/
def stamped_from (s r : TB σ) : Prop :=
  ∃ new : List (Sample σ),
    r.trace = s.trace ++ new
    ∧ new.map Sample.time = List.range' s.sim_time new.length
    ∧ r.sim_time = s.sim_time + new.length

/-- The most clock cycles one operation can advance, as fixed by its argument
or its attempt budget: `tick(n)` runs `n` cycles, `wait_status` at most its
budget, `clear_status` three, `start_transfer` one, `push_tx` at most its
1000 polls and one more, `pop_rx` at most its 2000 polls. -/
def cycle_bound : Op → Nat
  | .assign _ => 0
  | .tick tick_val => tick_val.toNat
  | .wait_status timeout => timeout.toNat
  | .clear_status => 3
  | .start_transfer => 1
  | .push_tx _ => 1001
  | .pop_rx => 2000
  | .check _ _ => 0
  | .check_bool _ _ => 0

/-- The sum of the cycle bounds of the operations of a run. -/
def run_cycle_bound : List Op → Nat
  | [] => 0
  | op :: ops => cycle_bound op + run_cycle_bound ops

/-- The index of the first cycle among `1, ..., T` of a wait started in `s`
whose low phase shows `status_o` asserted, if there is one. -/
def first_status_cycle (dev : Device σ) (T : Nat) (s : TB σ) : Option Nat :=
  (List.range' 1 T).find? (fun k => decide (status_low dev s k ≠ 0))

/-- The number of polling iterations of a wait with budget `T` started in
`s`: the index of the first cycle that shows the status, or `T` on timeout. -/
def polling_iterations (dev : Device σ) (T : Nat) (s : TB σ) : Nat :=
  (first_status_cycle dev T s).getD T

/-- Specification of the status wait as a run of the clock driver: choose `k`
from the sampled status, do what `tick(k)` does, and add one to `test_fail`
when the choice was a timeout. -/
def wait_status_spec (dev : Device σ) (T : Nat) (s : TB σ) : TB σ :=
  match first_status_cycle dev T s with
  | some k => tick dev k s
  | none => { tick dev T s with test_fail := s.test_fail + 1 }

/-- A device that never asserts any output. -/
def dev_silent : Device Unit where
  eval := fun _ _ => ()
  status_o := fun _ => 0
  busy_o := fun _ => 0
  tx_fifo_empty_o := fun _ => 0
  data_tx_ready_o := fun _ => 0
  data_rx_valid_o := fun _ => 0
  data_rx_o := fun _ => 0

/-- A device whose state counts its evaluations (two per cycle) and that
asserts `status_o`, `data_tx_ready_o` and `data_rx_valid_o` from the given
evaluation counts on; `data_rx_o` shows the count. -/
def dev_counting (status_from ready_from valid_from : Nat) : Device Nat where
  eval := fun _ c => c + 1
  status_o := fun c => if status_from ≤ c then 1 else 0
  busy_o := fun _ => 0
  tx_fifo_empty_o := fun _ => 0
  data_tx_ready_o := fun c => if ready_from ≤ c then 1 else 0
  data_rx_valid_o := fun c => if valid_from ≤ c then 1 else 0
  data_rx_o := fun c => c

/-- All input pins at zero. -/
def inputs_zero : Inputs :=
  { clk := 0, rstn := 0, command_i := 0, data_mode_i := 0, rd_wr_i := 0,
    dummy_cycle_i := 0, data_count_i := 0, has_addr_i := 0, prescaler_i := 0,
    clr_status_i := 0, start_i := 0, addr_i := 0, data_tx_i := 0,
    data_tx_valid_i := 0, data_rx_ready_i := 0, flush_tx_i := 0, flush_rx_i := 0 }

/-- The harness state at program start over a device state `d`: the globals
at their initialisers (`sim_time = 0`, `test_pass = 0`, `test_fail = 0`), an
empty trace, and the pins as the device constructor left them. -/
def tb_start {σ : Type} (i : Inputs) (d : σ) : TB σ :=
  { inputs := i, dut := d, sim_time := 0, test_pass := 0, test_fail := 0, trace := [] }

/-! ## Basic facts about the clock driver -/

@[simp] theorem clk_phase_sim_time (dev : Device σ) (c : Nat) (s : TB σ) :
    (clk_phase dev c s).sim_time = s.sim_time + 1 := rfl

@[simp] theorem clk_phase_test_pass (dev : Device σ) (c : Nat) (s : TB σ) :
    (clk_phase dev c s).test_pass = s.test_pass := rfl

@[simp] theorem clk_phase_test_fail (dev : Device σ) (c : Nat) (s : TB σ) :
    (clk_phase dev c s).test_fail = s.test_fail := rfl

@[simp] theorem clk_phase_inputs (dev : Device σ) (c : Nat) (s : TB σ) :
    (clk_phase dev c s).inputs = { s.inputs with clk := c } := rfl

@[simp] theorem clk_phase_dut (dev : Device σ) (c : Nat) (s : TB σ) :
    (clk_phase dev c s).dut = dev.eval { s.inputs with clk := c } s.dut := rfl

@[simp] theorem clk_phase_trace (dev : Device σ) (c : Nat) (s : TB σ) :
    (clk_phase dev c s).trace =
      s.trace ++ [{ time := s.sim_time, inputs := { s.inputs with clk := c },
                    dut := dev.eval { s.inputs with clk := c } s.dut }] := rfl

theorem cycle_trace (dev : Device σ) (s : TB σ) :
    (cycle dev s).trace = s.trace ++ cycle_samples dev s := by
  simp [cycle, cycle_samples]

@[simp] theorem cycle_sim_time (dev : Device σ) (s : TB σ) :
    (cycle dev s).sim_time = s.sim_time + 2 := rfl

@[simp] theorem cycle_test_pass (dev : Device σ) (s : TB σ) :
    (cycle dev s).test_pass = s.test_pass := rfl

@[simp] theorem cycle_test_fail (dev : Device σ) (s : TB σ) :
    (cycle dev s).test_fail = s.test_fail := rfl

@[simp] theorem cycle_inputs (dev : Device σ) (s : TB σ) :
    (cycle dev s).inputs = { s.inputs with clk := 1 } := rfl

theorem tick_loop_succ (dev : Device σ) (n : Nat) (s : TB σ) :
    tick_loop dev (n + 1) s = tick_loop dev n (cycle dev s) := rfl

theorem tick_loop_iterate (dev : Device σ) (n : Nat) (s : TB σ) :
    tick_loop dev n s = (cycle dev)^[n] s := by
  induction n generalizing s with
  | zero => rfl
  | succ n ih => rw [tick_loop_succ, ih, Function.iterate_succ_apply]

theorem tick_loop_add (dev : Device σ) (a b : Nat) (s : TB σ) :
    tick_loop dev b (tick_loop dev a s) = tick_loop dev (a + b) s := by
  rw [tick_loop_iterate, tick_loop_iterate, tick_loop_iterate, Nat.add_comm,
    Function.iterate_add_apply]

theorem tick_loop_succ_last (dev : Device σ) (n : Nat) (s : TB σ) :
    tick_loop dev (n + 1) s = cycle dev (tick_loop dev n s) := by
  rw [tick_loop_iterate, tick_loop_iterate, Function.iterate_succ_apply']

@[simp] theorem tick_natCast (dev : Device σ) (n : Nat) (s : TB σ) :
    tick dev (n : Int) s = tick_loop dev n s := by
  simp [tick]

@[simp] theorem tick_one (dev : Device σ) (s : TB σ) :
    tick dev 1 s = cycle dev s := rfl

@[simp] theorem tick_two (dev : Device σ) (s : TB σ) :
    tick dev 2 s = cycle dev (cycle dev s) := rfl

theorem tick_loop_sim_time (dev : Device σ) (n : Nat) (s : TB σ) :
    (tick_loop dev n s).sim_time = s.sim_time + 2 * n := by
  induction n generalizing s with
  | zero => rfl
  | succ n ih => rw [tick_loop_succ, ih, cycle_sim_time]; ring

theorem tick_loop_trace (dev : Device σ) (n : Nat) (s : TB σ) :
    ∃ new : List (Sample σ),
      (tick_loop dev n s).trace = s.trace ++ new ∧ new.length = 2 * n := by
  induction n generalizing s with
  | zero => exact ⟨[], by simp [tick_loop], rfl⟩
  | succ n ih =>
    obtain ⟨new, h1, h2⟩ := ih (cycle dev s)
    refine ⟨cycle_samples dev s ++ new, ?_, ?_⟩
    · rw [tick_loop_succ, h1, cycle_trace, List.append_assoc]
    · simp [h2, cycle_samples]; ring

@[simp] theorem tick_loop_test_fail (dev : Device σ) (n : Nat) (s : TB σ) :
    (tick_loop dev n s).test_fail = s.test_fail := by
  induction n generalizing s with
  | zero => rfl
  | succ n ih => rw [tick_loop_succ, ih, cycle_test_fail]

@[simp] theorem tick_loop_test_pass (dev : Device σ) (n : Nat) (s : TB σ) :
    (tick_loop dev n s).test_pass = s.test_pass := by
  induction n generalizing s with
  | zero => rfl
  | succ n ih => rw [tick_loop_succ, ih, cycle_test_pass]

/-! ## Facts about the status wait -/

theorem status_low_succ (dev : Device σ) (s : TB σ) (j : Nat) :
    status_low dev s (j + 1) = dev.status_o (clk_phase dev 0 (tick_loop dev j s)).dut := by
  simp [status_low, tick]

/-- The wait returns after cycle `k + 1` when the status is first seen there. -/
theorem wait_status_loop_found (dev : Device σ) (T k : Nat) (s : TB σ)
    (hk : k < T)
    (hlow : ∀ j, j < k → dev.status_o (clk_phase dev 0 (tick_loop dev j s)).dut = 0)
    (hhigh : dev.status_o (clk_phase dev 0 (tick_loop dev k s)).dut ≠ 0) :
    wait_status_loop dev T s = tick_loop dev (k + 1) s := by
  induction T generalizing s k with
  | zero => omega
  | succ T ih =>
    cases k with
    | zero =>
      have h : dev.status_o (clk_phase dev 0 s).dut ≠ 0 := hhigh
      simp only [wait_status_loop, h, ne_eq, not_false_eq_true, if_true]
      rfl
    | succ k =>
      have h0 : dev.status_o (clk_phase dev 0 s).dut = 0 := hlow 0 (by omega)
      have hrec : wait_status_loop dev (T + 1) s = wait_status_loop dev T (cycle dev s) := by
        simp only [wait_status_loop, h0, ne_eq, not_true_eq_false, if_false]
        rfl
      rw [hrec, tick_loop_succ]
      apply ih k (cycle dev s) (by omega)
      · intro j hj
        exact hlow (j + 1) (by omega)
      · exact hhigh

/-- The wait runs all `T` cycles and counts one failure when the status is
seen in none of them. -/
theorem wait_status_loop_timeout (dev : Device σ) (T : Nat) (s : TB σ)
    (hlow : ∀ j, j < T → dev.status_o (clk_phase dev 0 (tick_loop dev j s)).dut = 0) :
    wait_status_loop dev T s =
      { tick_loop dev T s with test_fail := s.test_fail + 1 } := by
  induction T generalizing s with
  | zero => rfl
  | succ T ih =>
    have h0 : dev.status_o (clk_phase dev 0 s).dut = 0 := hlow 0 (by omega)
    have hrec : wait_status_loop dev (T + 1) s = wait_status_loop dev T (cycle dev s) := by
      simp only [wait_status_loop, h0, ne_eq, not_true_eq_false, if_false]
      rfl
    rw [hrec, ih (cycle dev s) (fun j hj => hlow (j + 1) (by omega)), tick_loop_succ]
    rfl

theorem wait_status_natCast (dev : Device σ) (T : Nat) (s : TB σ) :
    wait_status dev (T : Int) s = some (wait_status_loop dev T s) := by
  simp [wait_status]

/-- Either the status is seen in a first cycle `k <= T`, or in none. -/
theorem status_low_first_or_never (dev : Device σ) (T : Nat) (s : TB σ) :
    (∃ k, 1 ≤ k ∧ k ≤ T ∧ status_low dev s k ≠ 0 ∧
        ∀ j, 1 ≤ j → j < k → status_low dev s j = 0)
    ∨ (∀ k, 1 ≤ k → k ≤ T → status_low dev s k = 0) := by
  by_cases h : ∃ k, (1 ≤ k ∧ k ≤ T) ∧ status_low dev s k ≠ 0
  · left
    classical
    refine ⟨Nat.find h, (Nat.find_spec h).1.1, (Nat.find_spec h).1.2, (Nat.find_spec h).2, ?_⟩
    intro j hj1 hjk
    by_contra hne
    exact Nat.find_min h hjk ⟨⟨hj1, le_trans (le_of_lt hjk) (Nat.find_spec h).1.2⟩, hne⟩
  · right
    intro k hk1 hkT
    by_contra hne
    exact h ⟨k, ⟨hk1, hkT⟩, hne⟩

/-! ## Facts about assignments to the pins -/

@[simp] theorem set_inputs_inputs (i : Inputs) (s : TB σ) :
    (set_inputs i s).inputs = i := rfl

@[simp] theorem set_inputs_dut (i : Inputs) (s : TB σ) :
    (set_inputs i s).dut = s.dut := rfl

@[simp] theorem set_inputs_sim_time (i : Inputs) (s : TB σ) :
    (set_inputs i s).sim_time = s.sim_time := rfl

@[simp] theorem set_inputs_test_pass (i : Inputs) (s : TB σ) :
    (set_inputs i s).test_pass = s.test_pass := rfl

@[simp] theorem set_inputs_test_fail (i : Inputs) (s : TB σ) :
    (set_inputs i s).test_fail = s.test_fail := rfl

@[simp] theorem set_inputs_trace (i : Inputs) (s : TB σ) :
    (set_inputs i s).trace = s.trace := rfl

/-! ## Facts about the receive channel -/

/-- The polling loop stops at the first check that reads valid asserted,
with `t - k` left in `timeout` when that is check number `k`. -/
theorem pop_rx_loop_found (dev : Device σ) (t k : Nat) (s : TB σ)
    (hk : k ≤ t)
    (hbefore : ∀ j, j < k → dev.data_rx_valid_o (tick_loop dev j s).dut = 0)
    (hat : dev.data_rx_valid_o (tick_loop dev k s).dut ≠ 0) :
    pop_rx_loop dev t s = ((t : Int) - k, tick_loop dev k s) := by
  induction t generalizing s k with
  | zero =>
    obtain rfl : k = 0 := by omega
    have h : dev.data_rx_valid_o s.dut ≠ 0 := hat
    simp [pop_rx_loop, h, tick_loop]
  | succ t ih =>
    cases k with
    | zero =>
      have h : dev.data_rx_valid_o s.dut ≠ 0 := hat
      simp [pop_rx_loop, h, tick_loop]
    | succ k =>
      have h0 : dev.data_rx_valid_o s.dut = 0 := hbefore 0 (by omega)
      have hrec : pop_rx_loop dev (t + 1) s = pop_rx_loop dev t (cycle dev s) := by
        simp [pop_rx_loop, h0]
      rw [hrec, ih k (cycle dev s) (by omega) (fun j hj => hbefore (j + 1) (by omega)) hat,
        tick_loop_succ]
      congr 1
      push_cast
      ring

/-- The polling loop runs all `t` advances and leaves `timeout = -1` when no
check reads valid asserted. -/
theorem pop_rx_loop_never (dev : Device σ) (t : Nat) (s : TB σ)
    (hnever : ∀ j, j ≤ t → dev.data_rx_valid_o (tick_loop dev j s).dut = 0) :
    pop_rx_loop dev t s = (-1, tick_loop dev t s) := by
  induction t generalizing s with
  | zero =>
    have h : dev.data_rx_valid_o s.dut = 0 := hnever 0 (by omega)
    simp [pop_rx_loop, h, tick_loop]
  | succ t ih =>
    have h0 : dev.data_rx_valid_o s.dut = 0 := hnever 0 (by omega)
    have hrec : pop_rx_loop dev (t + 1) s = pop_rx_loop dev t (cycle dev s) := by
      simp [pop_rx_loop, h0]
    rw [hrec, ih (cycle dev s) (fun j hj => hnever (j + 1) (by omega)), tick_loop_succ]

theorem rx_valid_poll_eq (dev : Device σ) (s : TB σ) (j : Nat) :
    rx_valid_poll dev s j = dev.data_rx_valid_o (tick_loop dev j (rx_ready_set s)).dut := by
  simp [rx_valid_poll]

/-- The sentinel path of `pop_rx`, taken when the loop leaves `timeout <= 0`. -/
theorem pop_rx_of_loop_le (dev : Device σ) (s : TB σ) (c : Int) (s2 : TB σ)
    (hloop : pop_rx_loop dev 2000 (rx_ready_set s) = (c, s2)) (hc : c ≤ 0) :
    (pop_rx dev s).1 = 0xDEAD0000 ∧ (pop_rx dev s).2 = rx_ready_clear s2 := by
  have h : pop_rx_loop dev 2000
      (set_inputs { s.inputs with data_rx_ready_i := 1 } s) = (c, s2) := hloop
  simp [pop_rx, h, hc, rx_ready_clear]

/-- The capture path of `pop_rx`, taken when the loop leaves `timeout > 0`. -/
theorem pop_rx_of_loop_pos (dev : Device σ) (s : TB σ) (c : Int) (s2 : TB σ)
    (hloop : pop_rx_loop dev 2000 (rx_ready_set s) = (c, s2)) (hc : 0 < c) :
    (pop_rx dev s).1 = dev.data_rx_o s2.dut
    ∧ (pop_rx dev s).2 = rx_ready_clear (cycle dev s2) := by
  have h : pop_rx_loop dev 2000
      (set_inputs { s.inputs with data_rx_ready_i := 1 } s) = (c, s2) := hloop
  have hc2 : ¬ c ≤ 0 := by omega
  simp [pop_rx, h, hc2, rx_ready_clear]

/-- No check reads valid asserted: the sentinel path after 2000 advances. -/
theorem pop_rx_never_valid (dev : Device σ) (s : TB σ)
    (hnever : ∀ j, j ≤ 2000 → rx_valid_poll dev s j = 0) :
    (pop_rx dev s).1 = 0xDEAD0000
    ∧ (pop_rx dev s).2 = rx_ready_clear (tick_loop dev 2000 (rx_ready_set s)) := by
  apply pop_rx_of_loop_le dev s (-1) _ _ (by omega)
  apply pop_rx_loop_never
  intro j hj
  rw [← rx_valid_poll_eq]
  exact hnever j hj

/-- Valid is first read asserted by the check after the 2000th advance:
`timeout` is 0 there and the sentinel path is taken all the same. -/
theorem pop_rx_valid_at_last (dev : Device σ) (s : TB σ)
    (hbefore : ∀ j, j < 2000 → rx_valid_poll dev s j = 0)
    (hat : rx_valid_poll dev s 2000 ≠ 0) :
    (pop_rx dev s).1 = 0xDEAD0000
    ∧ (pop_rx dev s).2 = rx_ready_clear (tick_loop dev 2000 (rx_ready_set s)) := by
  apply pop_rx_of_loop_le dev s ((2000 : Nat) - (2000 : Nat)) _ _ (by omega)
  apply pop_rx_loop_found dev 2000 2000 _ (le_refl _)
  · intro j hj
    rw [← rx_valid_poll_eq]
    exact hbefore j hj
  · rw [← rx_valid_poll_eq]
    exact hat

/-- Valid is first read asserted at check `k < 2000`: the capture path. -/
theorem pop_rx_valid_early (dev : Device σ) (s : TB σ) (k : Nat) (hk : k < 2000)
    (hbefore : ∀ j, j < k → rx_valid_poll dev s j = 0)
    (hat : rx_valid_poll dev s k ≠ 0) :
    (pop_rx dev s).1 = dev.data_rx_o (tick_loop dev k (rx_ready_set s)).dut
    ∧ (pop_rx dev s).2 = rx_ready_clear (cycle dev (tick_loop dev k (rx_ready_set s))) := by
  apply pop_rx_of_loop_pos dev s ((2000 : Nat) - (k : Nat)) _ _ (by omega)
  apply pop_rx_loop_found dev 2000 k _ (le_of_lt hk)
  · intro j hj
    rw [← rx_valid_poll_eq]
    exact hbefore j hj
  · rw [← rx_valid_poll_eq]
    exact hat

@[simp] theorem rx_ready_set_dut (s : TB σ) : (rx_ready_set s).dut = s.dut := rfl

@[simp] theorem rx_ready_set_sim_time (s : TB σ) :
    (rx_ready_set s).sim_time = s.sim_time := rfl

@[simp] theorem rx_ready_set_test_pass (s : TB σ) :
    (rx_ready_set s).test_pass = s.test_pass := rfl

@[simp] theorem rx_ready_set_test_fail (s : TB σ) :
    (rx_ready_set s).test_fail = s.test_fail := rfl

@[simp] theorem rx_ready_clear_dut (s : TB σ) : (rx_ready_clear s).dut = s.dut := rfl

@[simp] theorem rx_ready_clear_sim_time (s : TB σ) :
    (rx_ready_clear s).sim_time = s.sim_time := rfl

@[simp] theorem rx_ready_clear_test_pass (s : TB σ) :
    (rx_ready_clear s).test_pass = s.test_pass := rfl

@[simp] theorem rx_ready_clear_test_fail (s : TB σ) :
    (rx_ready_clear s).test_fail = s.test_fail := rfl

@[simp] theorem rx_ready_clear_ready (s : TB σ) :
    (rx_ready_clear s).inputs.data_rx_ready_i = 0 := rfl

/-- The counting device has been evaluated twice per cycle. -/
theorem dev_counting_tick_loop (a b c n : Nat) (s : TB Nat) :
    (tick_loop (dev_counting a b c) n s).dut = s.dut + 2 * n := by
  induction n generalizing s with
  | zero => rfl
  | succ n ih =>
    rw [tick_loop_succ, ih]
    simp only [cycle, clk_phase_dut, dev_counting]
    ring

theorem dev_counting_rx_valid_poll (a b c j : Nat) (s : TB Nat) :
    rx_valid_poll (dev_counting a b c) s j = if c ≤ s.dut + 2 * j then 1 else 0 := by
  rw [rx_valid_poll_eq, dev_counting_tick_loop]
  rfl

/-! ## Facts about the samples of a run of cycles -/

theorem tick_loop_trace_samples (dev : Device σ) (n : Nat) (s : TB σ) :
    (tick_loop dev n s).trace = s.trace ++ tick_samples dev n s := by
  induction n generalizing s with
  | zero => simp [tick_loop, tick_samples]
  | succ n ih =>
    rw [tick_loop_succ, ih, cycle_trace, tick_samples, List.append_assoc]

theorem tick_samples_length (dev : Device σ) (n : Nat) (s : TB σ) :
    (tick_samples dev n s).length = 2 * n := by
  induction n generalizing s with
  | zero => rfl
  | succ n ih =>
    rw [tick_samples, List.length_append, ih]
    simp [cycle_samples]
    ring

/-- Every sample of a run of cycles shows the transmit data and valid pins as
they were when the run started: `tick` assigns to `clk` only. -/
theorem tick_samples_tx_pins (dev : Device σ) (n : Nat) (s : TB σ) :
    ∀ x ∈ tick_samples dev n s,
      x.inputs.data_tx_i = s.inputs.data_tx_i
      ∧ x.inputs.data_tx_valid_i = s.inputs.data_tx_valid_i := by
  induction n generalizing s with
  | zero => intro x hx; simp [tick_samples] at hx
  | succ n ih =>
    intro x hx
    rw [tick_samples, List.mem_append] at hx
    rcases hx with hx | hx
    · simp only [cycle_samples, List.mem_cons, List.mem_singleton, List.not_mem_nil,
        or_false] at hx
      rcases hx with rfl | rfl
      · exact ⟨rfl, rfl⟩
      · exact ⟨rfl, rfl⟩
    · exact ih (cycle dev s) x hx

/-! ## Facts about the transmit channel -/

/-- The polling loop of `push_tx` is a run of `k` cycles, `k` being the first
check that reads ready asserted, or the whole budget. -/
theorem push_tx_loop_cycles (dev : Device σ) (t : Nat) (s : TB σ) :
    ∃ k, k ≤ t
      ∧ (∀ j, j < k → dev.data_tx_ready_o (tick_loop dev j s).dut = 0)
      ∧ (k < t → dev.data_tx_ready_o (tick_loop dev k s).dut ≠ 0)
      ∧ push_tx_loop dev t s = tick_loop dev k s := by
  induction t generalizing s with
  | zero =>
    exact ⟨0, le_refl _, fun j hj => absurd hj (by omega), fun h => absurd h (by omega), rfl⟩
  | succ t ih =>
    by_cases h0 : dev.data_tx_ready_o s.dut = 0
    · obtain ⟨k, hk, hbefore, hat, heq⟩ := ih (cycle dev s)
      refine ⟨k + 1, by omega, ?_, ?_, ?_⟩
      · intro j hj
        cases j with
        | zero => exact h0
        | succ j => exact hbefore j (by omega)
      · intro hlt
        exact hat (by omega)
      · rw [tick_loop_succ, ← heq]
        simp [push_tx_loop, h0]
    · refine ⟨0, by omega, fun j hj => absurd hj (by omega), fun _ => h0, ?_⟩
      simp [push_tx_loop, h0, tick_loop]

theorem tx_ready_poll_eq (dev : Device σ) (data : Nat) (s : TB σ) (j : Nat) :
    tx_ready_poll dev data s j
      = dev.data_tx_ready_o (tick_loop dev j (tx_offer data s)).dut := by
  simp [tx_ready_poll]

theorem push_tx_eq (dev : Device σ) (data : Nat) (s : TB σ) :
    push_tx dev data s
      = tx_valid_clear (cycle dev (push_tx_loop dev 1000 (tx_offer data s))) := rfl

/-! ## Facts about the result oracle -/

theorem check_test_pass (got expected : Nat) (s : TB σ) :
    (check got expected s).test_pass = s.test_pass + (if got = expected then 1 else 0) := by
  by_cases h : got = expected <;> simp [check, h]

theorem check_test_fail (got expected : Nat) (s : TB σ) :
    (check got expected s).test_fail = s.test_fail + (if got = expected then 0 else 1) := by
  by_cases h : got = expected <;> simp [check, h]

theorem check_bool_test_pass (got expected : Bool) (s : TB σ) :
    (check_bool got expected s).test_pass
      = s.test_pass + (if got = expected then 1 else 0) := by
  by_cases h : got = expected <;> simp [check_bool, h]

theorem check_bool_test_fail (got expected : Bool) (s : TB σ) :
    (check_bool got expected s).test_fail
      = s.test_fail + (if got = expected then 0 else 1) := by
  by_cases h : got = expected <;> simp [check_bool, h]

theorem checkCall_apply_test_pass (c : CheckCall) (s : TB σ) :
    (c.apply s).test_pass = s.test_pass + (if c.isMatch then 1 else 0) := by
  cases c with
  | word got expected =>
    simp only [CheckCall.apply, CheckCall.isMatch, check_test_pass, decide_eq_true_eq]
  | flag got expected =>
    simp only [CheckCall.apply, CheckCall.isMatch, check_bool_test_pass, decide_eq_true_eq]

theorem checkCall_apply_test_fail (c : CheckCall) (s : TB σ) :
    (c.apply s).test_fail = s.test_fail + (if c.isMatch then 0 else 1) := by
  cases c with
  | word got expected =>
    simp only [CheckCall.apply, CheckCall.isMatch, check_test_fail, decide_eq_true_eq]
  | flag got expected =>
    simp only [CheckCall.apply, CheckCall.isMatch, check_bool_test_fail, decide_eq_true_eq]

theorem run_checks_test_pass (cs : List CheckCall) (s : TB σ) :
    (run_checks cs s).test_pass = s.test_pass + (cs.filter (fun c => c.isMatch)).length := by
  induction cs generalizing s with
  | nil => simp [run_checks]
  | cons c cs ih =>
    rw [run_checks, ih, checkCall_apply_test_pass]
    by_cases h : c.isMatch = true
    · simp [h]; ring
    · simp [h]

theorem run_checks_test_fail (cs : List CheckCall) (s : TB σ) :
    (run_checks cs s).test_fail
      = s.test_fail + (cs.filter (fun c => !c.isMatch)).length := by
  induction cs generalizing s with
  | nil => simp [run_checks]
  | cons c cs ih =>
    rw [run_checks, ih, checkCall_apply_test_fail]
    by_cases h : c.isMatch = true
    · simp [h]
    · simp [h]; ring

theorem filter_match_add_filter_mismatch (cs : List CheckCall) :
    (cs.filter (fun c => c.isMatch)).length + (cs.filter (fun c => !c.isMatch)).length
      = cs.length := by
  induction cs with
  | nil => rfl
  | cons c cs ih =>
    by_cases h : c.isMatch = true
    · simp [h]; omega
    · simp [h]; omega

/-! ## Facts about the failure tally along a run -/

@[simp] theorem tick_test_fail (dev : Device σ) (n : Int) (s : TB σ) :
    (tick dev n s).test_fail = s.test_fail := by
  simp [tick]

theorem wait_status_loop_test_fail (dev : Device σ) (T : Nat) (s : TB σ) :
    (wait_status_loop dev T s).test_fail
      = s.test_fail + (if ∀ k, k < T → status_low dev s (k + 1) = 0 then 1 else 0) := by
  by_cases h : ∀ k, k < T → status_low dev s (k + 1) = 0
  · rw [if_pos h, wait_status_loop_timeout dev T s
      (fun j hj => by rw [← status_low_succ]; exact h j hj)]
  · rw [if_neg h]
    have hex : ∃ k, k < T ∧ status_low dev s (k + 1) ≠ 0 := by
      by_contra hn
      apply h
      intro k hk
      by_contra hne
      exact hn ⟨k, hk, hne⟩
    classical
    have hspec := Nat.find_spec hex
    rw [wait_status_loop_found dev T (Nat.find hex) s hspec.1
      (fun j hj => by
        rw [← status_low_succ]
        by_contra hne
        exact Nat.find_min hex hj ⟨lt_trans hj hspec.1, hne⟩)
      (by rw [← status_low_succ]; exact hspec.2)]
    simp

theorem wait_status_neg_test_fail (dev : Device σ) (room : Nat) (s r : TB σ)
    (h : wait_status_neg dev room s = some r) : r.test_fail = s.test_fail := by
  induction room generalizing s with
  | zero => simp [wait_status_neg] at h
  | succ room ih =>
    by_cases hs : dev.status_o (clk_phase dev 0 s).dut = 0
    · have hrec : wait_status_neg dev (room + 1) s
          = wait_status_neg dev room (cycle dev s) := by
        simp only [wait_status_neg, hs, ne_eq, not_true_eq_false, if_false]
        rfl
      rw [hrec] at h
      rw [ih (cycle dev s) h, cycle_test_fail]
    · have hret : wait_status_neg dev (room + 1) s = some (cycle dev s) := by
        simp only [wait_status_neg, hs, ne_eq, not_false_eq_true, if_true]
        rfl
      rw [hret] at h
      rw [← Option.some.inj h, cycle_test_fail]

theorem push_tx_loop_test_fail (dev : Device σ) (t : Nat) (s : TB σ) :
    (push_tx_loop dev t s).test_fail = s.test_fail := by
  obtain ⟨k, -, -, -, heq⟩ := push_tx_loop_cycles dev t s
  rw [heq, tick_loop_test_fail]

theorem push_tx_test_fail (dev : Device σ) (data : Nat) (s : TB σ) :
    (push_tx dev data s).test_fail = s.test_fail := by
  rw [push_tx_eq]
  show (cycle dev (push_tx_loop dev 1000 (tx_offer data s))).test_fail = _
  rw [cycle_test_fail, push_tx_loop_test_fail]
  rfl

theorem pop_rx_loop_test_fail (dev : Device σ) (t : Nat) (s : TB σ) :
    (pop_rx_loop dev t s).2.test_fail = s.test_fail := by
  induction t generalizing s with
  | zero =>
    by_cases h : dev.data_rx_valid_o s.dut = 0 <;> simp [pop_rx_loop, h]
  | succ t ih =>
    by_cases h : dev.data_rx_valid_o s.dut = 0
    · have hrec : pop_rx_loop dev (t + 1) s = pop_rx_loop dev t (cycle dev s) := by
        simp [pop_rx_loop, h]
      rw [hrec, ih, cycle_test_fail]
    · simp [pop_rx_loop, h]

/-- The state `pop_rx` returns is the state its loop left, advanced by one
cycle on the capture path, with ready cleared. -/
theorem pop_rx_snd (dev : Device σ) (s : TB σ) :
    ∃ c s2, pop_rx_loop dev 2000 (rx_ready_set s) = (c, s2)
      ∧ ((pop_rx dev s).2 = rx_ready_clear s2
          ∨ (pop_rx dev s).2 = rx_ready_clear (cycle dev s2)) := by
  rcases hl : pop_rx_loop dev 2000 (rx_ready_set s) with ⟨c, s2⟩
  refine ⟨c, s2, rfl, ?_⟩
  by_cases hc : c ≤ 0
  · left
    exact (pop_rx_of_loop_le dev s c s2 hl hc).2
  · right
    exact (pop_rx_of_loop_pos dev s c s2 hl (by omega)).2

theorem pop_rx_test_fail (dev : Device σ) (s : TB σ) :
    (pop_rx dev s).2.test_fail = s.test_fail := by
  obtain ⟨c, s2, hl, h⟩ := pop_rx_snd dev s
  have h2 : s2.test_fail = s.test_fail := by
    have h3 := pop_rx_loop_test_fail dev 2000 (rx_ready_set s)
    rw [hl] at h3
    exact h3
  rcases h with h | h
  · rw [h, rx_ready_clear_test_fail, h2]
  · rw [h, rx_ready_clear_test_fail, cycle_test_fail, h2]

/-- Each operation raises `test_fail` by one when it records a failure and
leaves it alone otherwise. -/
theorem step_test_fail (dev : Device σ) (op : Op) (s r : TB σ)
    (h : step dev op s = some r) :
    r.test_fail = s.test_fail + (if records_failure dev op s then 1 else 0) := by
  cases op with
  | assign i =>
    rw [← Option.some.inj h]; simp [records_failure]
  | tick n =>
    rw [← Option.some.inj h]; simp [records_failure]
  | wait_status T =>
    by_cases hT : 0 ≤ T
    · have hw : wait_status dev T s = some (wait_status_loop dev T.toNat s) := by
        simp [wait_status, hT]
      have h2 : some (wait_status_loop dev T.toNat s) = some r := by
        rw [← hw]; exact h
      rw [← Option.some.inj h2, wait_status_loop_test_fail]
      by_cases hP : ∀ k, k < T.toNat → status_low dev s (k + 1) = 0
      · have hd : records_failure dev (Op.wait_status T) s = true :=
          decide_eq_true ⟨hT, hP⟩
        rw [if_pos hP, hd]
        rfl
      · have hd : records_failure dev (Op.wait_status T) s = false :=
          decide_eq_false (fun hc => hP hc.2)
        rw [if_neg hP, hd]
        rfl
    · have hw : wait_status dev T s = wait_status_neg dev (T + 2 ^ 31).toNat s := by
        simp [wait_status, hT]
      have h2 : wait_status_neg dev (T + 2 ^ 31).toNat s = some r := by
        rw [← hw]; exact h
      rw [wait_status_neg_test_fail dev _ s r h2]
      simp [records_failure, hT]
  | clear_status =>
    rw [← Option.some.inj h]; simp [records_failure]; rfl
  | start_transfer =>
    rw [← Option.some.inj h]; simp [records_failure]; rfl
  | push_tx data =>
    rw [← Option.some.inj h, push_tx_test_fail]; simp [records_failure]
  | pop_rx =>
    rw [← Option.some.inj h, pop_rx_test_fail]; simp [records_failure]
  | check got expected =>
    rw [← Option.some.inj h, check_test_fail]
    by_cases hg : got = expected <;> simp [records_failure, hg]
  | check_bool got expected =>
    rw [← Option.some.inj h, check_bool_test_fail]
    by_cases hg : got = expected <;> simp [records_failure, hg]

theorem run_test_fail (dev : Device σ) (ops : List Op) (s r : TB σ)
    (h : run dev ops s = some r) :
    r.test_fail = s.test_fail + failures dev ops s := by
  induction ops generalizing s with
  | nil =>
    rw [← Option.some.inj h]; simp [failures]
  | cons op ops ih =>
    rw [run, Option.bind_eq_some] at h
    obtain ⟨m, hm, hr⟩ := h
    rw [ih m hr, step_test_fail dev op s m hm]
    simp only [failures, hm]
    push_cast
    split <;> ring

theorem step_isSome_of_budget_ok (dev : Device σ) (op : Op) (s : TB σ)
    (h : budget_ok op = true) : (step dev op s).isSome = true := by
  cases op with
  | wait_status T =>
    have hT : 0 ≤ T := by simpa [budget_ok] using h
    simp [step, wait_status, hT]
  | _ => rfl

theorem run_isSome_of_budget_ok (dev : Device σ) (ops : List Op) (s : TB σ)
    (h : ∀ op ∈ ops, budget_ok op = true) : (run dev ops s).isSome = true := by
  induction ops generalizing s with
  | nil => rfl
  | cons op ops ih =>
    obtain ⟨m, hm⟩ := Option.isSome_iff_exists.mp
      (step_isSome_of_budget_ok dev op s (h op (List.mem_cons_self _ _)))
    rw [run, hm]
    exact ih m (fun o ho => h o (List.mem_cons_of_mem _ ho))

/-! ## Facts about the timestamps of the trace -/

theorem stamped_from_refl (s : TB σ) : stamped_from s s :=
  ⟨[], by simp, rfl, rfl⟩

theorem stamped_from_same (s r : TB σ) (h1 : r.trace = s.trace)
    (h2 : r.sim_time = s.sim_time) : stamped_from s r :=
  ⟨[], by simp [h1], rfl, by simp [h2]⟩

theorem stamped_from_trans (s m r : TB σ) (h1 : stamped_from s m)
    (h2 : stamped_from m r) : stamped_from s r := by
  obtain ⟨n1, ht1, hm1, hs1⟩ := h1
  obtain ⟨n2, ht2, hm2, hs2⟩ := h2
  refine ⟨n1 ++ n2, ?_, ?_, ?_⟩
  · rw [ht2, ht1, List.append_assoc]
  · rw [List.map_append, hm1, hm2, hs1, List.length_append, List.range'_append_1,
      Nat.add_comm n2.length]
  · rw [hs2, hs1, List.length_append, Nat.add_assoc]

theorem stamped_from_clk_phase (dev : Device σ) (c : Nat) (s : TB σ) :
    stamped_from s (clk_phase dev c s) :=
  ⟨[{ time := s.sim_time, inputs := { s.inputs with clk := c },
      dut := dev.eval { s.inputs with clk := c } s.dut }], rfl, rfl, rfl⟩

theorem stamped_from_cycle (dev : Device σ) (s : TB σ) :
    stamped_from s (cycle dev s) :=
  stamped_from_trans _ _ _ (stamped_from_clk_phase dev 0 s)
    (stamped_from_clk_phase dev 1 (clk_phase dev 0 s))

theorem stamped_from_tick_loop (dev : Device σ) (n : Nat) (s : TB σ) :
    stamped_from s (tick_loop dev n s) := by
  induction n generalizing s with
  | zero => exact stamped_from_refl s
  | succ n ih =>
    rw [tick_loop_succ]
    exact stamped_from_trans _ _ _ (stamped_from_cycle dev s) (ih (cycle dev s))

theorem stamped_from_tick (dev : Device σ) (n : Int) (s : TB σ) :
    stamped_from s (tick dev n s) :=
  stamped_from_tick_loop dev n.toNat s

theorem stamped_from_wait_status_loop (dev : Device σ) (T : Nat) (s : TB σ) :
    stamped_from s (wait_status_loop dev T s) := by
  induction T generalizing s with
  | zero => exact stamped_from_same _ _ rfl rfl
  | succ T ih =>
    by_cases hs : dev.status_o (clk_phase dev 0 s).dut = 0
    · have hrec : wait_status_loop dev (T + 1) s = wait_status_loop dev T (cycle dev s) := by
        simp only [wait_status_loop, hs, ne_eq, not_true_eq_false, if_false]
        rfl
      rw [hrec]
      exact stamped_from_trans _ _ _ (stamped_from_cycle dev s) (ih (cycle dev s))
    · have hret : wait_status_loop dev (T + 1) s = cycle dev s := by
        simp only [wait_status_loop, hs, ne_eq, not_false_eq_true, if_true]
        rfl
      rw [hret]
      exact stamped_from_cycle dev s

theorem stamped_from_wait_status_neg (dev : Device σ) (room : Nat) (s r : TB σ)
    (h : wait_status_neg dev room s = some r) : stamped_from s r := by
  induction room generalizing s with
  | zero => simp [wait_status_neg] at h
  | succ room ih =>
    by_cases hs : dev.status_o (clk_phase dev 0 s).dut = 0
    · have hrec : wait_status_neg dev (room + 1) s
          = wait_status_neg dev room (cycle dev s) := by
        simp only [wait_status_neg, hs, ne_eq, not_true_eq_false, if_false]
        rfl
      rw [hrec] at h
      exact stamped_from_trans _ _ _ (stamped_from_cycle dev s) (ih (cycle dev s) h)
    · have hret : wait_status_neg dev (room + 1) s = some (cycle dev s) := by
        simp only [wait_status_neg, hs, ne_eq, not_false_eq_true, if_true]
        rfl
      rw [hret] at h
      rw [← Option.some.inj h]
      exact stamped_from_cycle dev s

theorem stamped_from_wait_status (dev : Device σ) (T : Int) (s r : TB σ)
    (h : wait_status dev T s = some r) : stamped_from s r := by
  by_cases hT : 0 ≤ T
  · have hw : wait_status dev T s = some (wait_status_loop dev T.toNat s) := by
      simp [wait_status, hT]
    rw [hw] at h
    rw [← Option.some.inj h]
    exact stamped_from_wait_status_loop dev T.toNat s
  · have hw : wait_status dev T s = wait_status_neg dev (T + 2 ^ 31).toNat s := by
      simp [wait_status, hT]
    rw [hw] at h
    exact stamped_from_wait_status_neg dev _ s r h

theorem stamped_from_set_inputs_left (i : Inputs) (s r : TB σ)
    (h : stamped_from (set_inputs i s) r) : stamped_from s r := h

theorem stamped_from_set_inputs_right (i : Inputs) (s r : TB σ)
    (h : stamped_from s r) : stamped_from s (set_inputs i r) := h

theorem stamped_from_clear_status (dev : Device σ) (s : TB σ) :
    stamped_from s (clear_status dev s) := by
  apply stamped_from_set_inputs_left { s.inputs with clr_status_i := 1 }
  exact stamped_from_trans _ _ _ (stamped_from_tick dev 1 _)
    (stamped_from_set_inputs_left _ _ _ (stamped_from_tick dev 2 _))

theorem stamped_from_start_transfer (dev : Device σ) (s : TB σ) :
    stamped_from s (start_transfer dev s) := by
  apply stamped_from_set_inputs_left { s.inputs with start_i := 1 }
  exact stamped_from_set_inputs_right _ _ _ (stamped_from_tick dev 1 _)

theorem stamped_from_push_tx (dev : Device σ) (data : Nat) (s : TB σ) :
    stamped_from s (push_tx dev data s) := by
  obtain ⟨k, -, -, -, heq⟩ := push_tx_loop_cycles dev 1000 (tx_offer data s)
  rw [push_tx_eq, heq]
  apply stamped_from_set_inputs_left
    { s.inputs with data_tx_i := data, data_tx_valid_i := 1 }
  exact stamped_from_set_inputs_right _ _ _
    (stamped_from_trans _ _ _ (stamped_from_tick_loop dev k _) (stamped_from_cycle dev _))

theorem stamped_from_pop_rx_loop (dev : Device σ) (t : Nat) (s : TB σ) :
    stamped_from s (pop_rx_loop dev t s).2 := by
  induction t generalizing s with
  | zero =>
    by_cases h : dev.data_rx_valid_o s.dut = 0
    · simp only [pop_rx_loop, h, ne_eq, not_true_eq_false, if_false]
      exact stamped_from_refl s
    · simp only [pop_rx_loop, h, ne_eq, not_false_eq_true, if_true]
      exact stamped_from_refl s
  | succ t ih =>
    by_cases h : dev.data_rx_valid_o s.dut = 0
    · have hrec : pop_rx_loop dev (t + 1) s = pop_rx_loop dev t (cycle dev s) := by
        simp [pop_rx_loop, h]
      rw [hrec]
      exact stamped_from_trans _ _ _ (stamped_from_cycle dev s) (ih (cycle dev s))
    · simp only [pop_rx_loop, h, ne_eq, not_false_eq_true, if_true]
      exact stamped_from_refl s

theorem stamped_from_pop_rx (dev : Device σ) (s : TB σ) :
    stamped_from s (pop_rx dev s).2 := by
  obtain ⟨c, s2, hl, h⟩ := pop_rx_snd dev s
  have h2 : stamped_from (rx_ready_set s) s2 := by
    have h3 := stamped_from_pop_rx_loop dev 2000 (rx_ready_set s)
    rw [hl] at h3
    exact h3
  rcases h with h | h
  · rw [h]
    exact stamped_from_set_inputs_right _ _ _ h2
  · rw [h]
    exact stamped_from_set_inputs_right _ _ _
      (stamped_from_trans _ _ _ h2 (stamped_from_cycle dev s2))

theorem stamped_from_check (got expected : Nat) (s : TB σ) :
    stamped_from s (check got expected s) := by
  by_cases h : got = expected <;>
    exact stamped_from_same _ _ (by simp [check, h]) (by simp [check, h])

theorem stamped_from_check_bool (got expected : Bool) (s : TB σ) :
    stamped_from s (check_bool got expected s) := by
  by_cases h : got = expected <;>
    exact stamped_from_same _ _ (by simp [check_bool, h]) (by simp [check_bool, h])

theorem stamped_from_step (dev : Device σ) (op : Op) (s r : TB σ)
    (h : step dev op s = some r) : stamped_from s r := by
  cases op with
  | assign i => rw [← Option.some.inj h]; exact stamped_from_same _ _ rfl rfl
  | tick n => rw [← Option.some.inj h]; exact stamped_from_tick dev n s
  | wait_status T => exact stamped_from_wait_status dev T s r h
  | clear_status => rw [← Option.some.inj h]; exact stamped_from_clear_status dev s
  | start_transfer => rw [← Option.some.inj h]; exact stamped_from_start_transfer dev s
  | push_tx data => rw [← Option.some.inj h]; exact stamped_from_push_tx dev data s
  | pop_rx => rw [← Option.some.inj h]; exact stamped_from_pop_rx dev s
  | check got expected => rw [← Option.some.inj h]; exact stamped_from_check got expected s
  | check_bool got expected =>
    rw [← Option.some.inj h]; exact stamped_from_check_bool got expected s

theorem stamped_from_run (dev : Device σ) (ops : List Op) (s r : TB σ)
    (h : run dev ops s = some r) : stamped_from s r := by
  induction ops generalizing s with
  | nil => rw [← Option.some.inj h]; exact stamped_from_refl s
  | cons op ops ih =>
    rw [run, Option.bind_eq_some] at h
    obtain ⟨m, hm, hr⟩ := h
    exact stamped_from_trans _ _ _ (stamped_from_step dev op s m hm) (ih m hr)

/-! ## C5: the clock driver -/

/-- C5: for every `n >= 0` and every device, `tick(n)` is `n` repetitions of
the cycle (clk := 0, eval, dump, clk := 1, eval, dump); it appends exactly
`2n` samples to the trace and adds exactly `2n` to `sim_time`; `tick(a)`
followed by `tick(b)` is `tick(a+b)`; and `tick` with an argument `<= 0`
changes nothing. -/
theorem tick_performs_n_cycles (dev : Device σ) (s : TB σ) (n a b k : Nat) :
    tick dev n s = (fun t => clk_phase dev 1 (clk_phase dev 0 t))^[n] s
    ∧ (∃ new : List (Sample σ),
        (tick dev n s).trace = s.trace ++ new ∧ new.length = 2 * n)
    ∧ (tick dev n s).sim_time = s.sim_time + 2 * n
    ∧ tick dev b (tick dev a s) = tick dev ((a : Int) + b) s
    ∧ tick dev (-(k : Int)) s = s := by
  refine ⟨?_, ?_, ?_, ?_, ?_⟩
  · rw [tick_natCast, tick_loop_iterate]; rfl
  · rw [tick_natCast]; exact tick_loop_trace dev n s
  · rw [tick_natCast]; exact tick_loop_sim_time dev n s
  · rw [tick_natCast, tick_natCast, tick_loop_add]
    have h : ((a : Int) + b) = ((a + b : Nat) : Int) := by push_cast; rfl
    rw [h, tick_natCast]
  · have h : (-(k : Int)).toNat = 0 := by
      apply Int.toNat_eq_zero.mpr; omega
    simp [tick, h, tick_loop]

/-! ## C1: the status wait -/

/-- C1: for every device and every budget `T >= 0`, `wait_status` does exactly
one of two things.  Either `status_o` is asserted after the low phase of a
first cycle `k` with `1 <= k <= T`, and the call returns after exactly `k`
complete cycles with both tallies unchanged; or `status_o` is asserted in none
of the `T` cycles, and the call runs exactly `T` cycles and adds exactly one to
`test_fail`.  The tally is raised if and only if the status was never seen,
so the two outcomes never coincide and one of them always happens (with
`T = 0`: one timeout, no cycle). -/
theorem wait_status_exactly_one_outcome (dev : Device σ) (T : Nat) (s : TB σ) :
    ((∃ k, 1 ≤ k ∧ k ≤ T ∧ status_low dev s k ≠ 0
          ∧ (∀ j, 1 ≤ j → j < k → status_low dev s j = 0)
          ∧ wait_status dev T s = some (tick dev k s)
          ∧ (tick dev k s).test_fail = s.test_fail
          ∧ (tick dev k s).test_pass = s.test_pass
          ∧ (tick dev k s).sim_time = s.sim_time + 2 * k)
      ∨ ((∀ k, 1 ≤ k → k ≤ T → status_low dev s k = 0)
          ∧ wait_status dev T s = some { tick dev T s with test_fail := s.test_fail + 1 }
          ∧ (tick dev T s).test_pass = s.test_pass
          ∧ (tick dev T s).sim_time = s.sim_time + 2 * T))
    ∧ (∀ r, wait_status dev T s = some r →
        (r.test_fail = s.test_fail ∨ r.test_fail = s.test_fail + 1)
        ∧ (r.test_fail = s.test_fail + 1 ↔
            ∀ k, 1 ≤ k → k ≤ T → status_low dev s k = 0)
        ∧ (r.test_fail = s.test_fail ↔
            ∃ k, 1 ≤ k ∧ k ≤ T ∧ status_low dev s k ≠ 0)) := by
  have found : ∀ k, 1 ≤ k → k ≤ T → status_low dev s k ≠ 0 →
      (∀ j, 1 ≤ j → j < k → status_low dev s j = 0) →
      wait_status dev T s = some (tick dev k s) := by
    intro k hk1 hkT hk hfirst
    obtain ⟨k, rfl⟩ : ∃ i, k = i + 1 := ⟨k - 1, by omega⟩
    rw [wait_status_natCast, tick_natCast]
    congr 1
    apply wait_status_loop_found dev T k s (by omega)
    · intro j hj
      rw [← status_low_succ]
      exact hfirst (j + 1) (by omega) (by omega)
    · rw [← status_low_succ]; exact hk
  have never : (∀ k, 1 ≤ k → k ≤ T → status_low dev s k = 0) →
      wait_status dev T s = some { tick dev T s with test_fail := s.test_fail + 1 } := by
    intro h
    rw [wait_status_natCast, tick_natCast]
    congr 1
    apply wait_status_loop_timeout
    intro j hj
    rw [← status_low_succ]
    exact h (j + 1) (by omega) (by omega)
  refine ⟨?_, ?_⟩
  · rcases status_low_first_or_never dev T s with ⟨k, hk1, hkT, hk, hfirst⟩ | h
    · left
      refine ⟨k, hk1, hkT, hk, hfirst, found k hk1 hkT hk hfirst, ?_, ?_, ?_⟩
      · simp
      · simp
      · rw [tick_natCast, tick_loop_sim_time]
    · right
      refine ⟨h, never h, ?_, ?_⟩
      · simp
      · rw [tick_natCast, tick_loop_sim_time]
  · intro r hr
    rcases status_low_first_or_never dev T s with ⟨k, hk1, hkT, hk, hfirst⟩ | h
    · rw [found k hk1 hkT hk hfirst] at hr
      have hr2 : r = tick dev k s := (Option.some.inj hr).symm
      have hf : r.test_fail = s.test_fail := by rw [hr2]; simp
      refine ⟨Or.inl hf, ?_, ?_⟩
      · constructor
        · intro h1; omega
        · intro h1; exact absurd (h1 k hk1 hkT) hk
      · constructor
        · intro _; exact ⟨k, hk1, hkT, hk⟩
        · intro _; exact hf
    · rw [never h] at hr
      have hr2 : r = { tick dev T s with test_fail := s.test_fail + 1 } :=
        (Option.some.inj hr).symm
      have hf : r.test_fail = s.test_fail + 1 := by rw [hr2]
      refine ⟨Or.inr hf, ?_, ?_⟩
      · constructor
        · intro _; exact h
        · intro _; exact hf
      · constructor
        · intro h1; omega
        · rintro ⟨k, hk1, hkT, hk⟩; exact absurd (h k hk1 hkT) hk

/-! ## C2, C3, C4: the receive channel -/

/-- What the timeout path of `pop_rx` does as written, for every device on
which no check of the call, before or after any of its 2000 advances, reads
`data_rx_valid_o` asserted: the sentinel `0xDEAD0000` is returned after
exactly 2000 cycles with `data_rx_ready_i` deasserted, and neither tally is
touched, unlike in the timeout path of `wait_status`. -/
theorem pop_rx_timeout_returns_sentinel (dev : Device σ) (s : TB σ)
    (hnever : ∀ j, j ≤ 2000 → rx_valid_poll dev s j = 0) :
    (pop_rx dev s).1 = 0xDEAD0000
    ∧ (pop_rx dev s).2.inputs.data_rx_ready_i = 0
    ∧ (pop_rx dev s).2.test_fail = s.test_fail
    ∧ (pop_rx dev s).2.test_pass = s.test_pass
    ∧ (pop_rx dev s).2.sim_time = s.sim_time + 2 * 2000 := by
  obtain ⟨h1, h2⟩ := pop_rx_never_valid dev s hnever
  rw [h2]
  refine ⟨h1, ?_, ?_, ?_, ?_⟩
  · rw [rx_ready_clear_ready]
  · rw [rx_ready_clear_test_fail, tick_loop_test_fail, rx_ready_set_test_fail]
  · rw [rx_ready_clear_test_pass, tick_loop_test_pass, rx_ready_set_test_pass]
  · rw [rx_ready_clear_sim_time, tick_loop_sim_time, rx_ready_set_sim_time]

/-- C2 (evaluation at the failing input): on the silent device, started with
`test_fail = 0`, no check of `pop_rx` reads `data_rx_valid_o` asserted; the
call returns the sentinel `0xDEAD0000` with `data_rx_ready_i` deasserted, as
the claim says, but `test_fail` is still 0 afterwards: the timeout has not
been counted. -/
theorem pop_rx_timeout_does_not_count :
    (∀ j, j ≤ 2000 → rx_valid_poll dev_silent (tb_start inputs_zero ()) j = 0)
    ∧ (pop_rx dev_silent (tb_start inputs_zero ())).1 = 0xDEAD0000
    ∧ (pop_rx dev_silent (tb_start inputs_zero ())).2.inputs.data_rx_ready_i = 0
    ∧ (pop_rx dev_silent (tb_start inputs_zero ())).2.test_fail = 0
    ∧ ¬ ((pop_rx dev_silent (tb_start inputs_zero ())).2.test_fail
          = (tb_start inputs_zero ()).test_fail + 1) := by
  have h : ∀ j, j ≤ 2000 → rx_valid_poll dev_silent (tb_start inputs_zero ()) j = 0 :=
    fun _ _ => rfl
  obtain ⟨h1, h2⟩ := pop_rx_never_valid dev_silent (tb_start inputs_zero ()) h
  have hf : (pop_rx dev_silent (tb_start inputs_zero ())).2.test_fail = 0 := by
    rw [h2, rx_ready_clear_test_fail, tick_loop_test_fail, rx_ready_set_test_fail]
    rfl
  refine ⟨h, h1, ?_, hf, ?_⟩
  · rw [h2, rx_ready_clear_ready]
  · rw [hf]; decide

/-- C3 (evaluation at the failing input): the counting device asserts
`data_rx_valid_o` from its 4000th evaluation on, so the checks after 0 to 1999
advances read it deasserted and the check after the 2000th advance reads it
asserted and stops the loop; `pop_rx` nevertheless returns the sentinel
`0xDEAD0000` and not the word 4000 that `data_rx_o` shows, and advances no
further cycle. -/
theorem pop_rx_sentinel_although_valid :
    (∀ j, j < 2000 → rx_valid_poll (dev_counting 0 0 4000) (tb_start inputs_zero 0) j = 0)
    ∧ rx_valid_poll (dev_counting 0 0 4000) (tb_start inputs_zero 0) 2000 ≠ 0
    ∧ (pop_rx (dev_counting 0 0 4000) (tb_start inputs_zero 0)).1 = 0xDEAD0000
    ∧ (dev_counting 0 0 4000).data_rx_valid_o
        (pop_rx (dev_counting 0 0 4000) (tb_start inputs_zero 0)).2.dut ≠ 0
    ∧ (dev_counting 0 0 4000).data_rx_o
        (pop_rx (dev_counting 0 0 4000) (tb_start inputs_zero 0)).2.dut = 4000
    ∧ (pop_rx (dev_counting 0 0 4000) (tb_start inputs_zero 0)).2.sim_time = 4000 := by
  have hbefore : ∀ j, j < 2000 →
      rx_valid_poll (dev_counting 0 0 4000) (tb_start inputs_zero 0) j = 0 := by
    intro j hj
    rw [dev_counting_rx_valid_poll]
    have : ¬ 4000 ≤ (tb_start inputs_zero 0).dut + 2 * j := by
      show ¬ 4000 ≤ 0 + 2 * j
      omega
    simp [this]
  have hat : rx_valid_poll (dev_counting 0 0 4000) (tb_start inputs_zero 0) 2000 ≠ 0 := by
    rw [dev_counting_rx_valid_poll]
    decide
  obtain ⟨h1, h2⟩ := pop_rx_valid_at_last _ _ hbefore hat
  have hd : (pop_rx (dev_counting 0 0 4000) (tb_start inputs_zero 0)).2.dut = 4000 := by
    rw [h2, rx_ready_clear_dut, dev_counting_tick_loop, rx_ready_set_dut]
    rfl
  refine ⟨hbefore, hat, h1, ?_, ?_, ?_⟩
  · rw [hd]; decide
  · rw [hd]; rfl
  · rw [h2, rx_ready_clear_sim_time, tick_loop_sim_time, rx_ready_set_sim_time]
    rfl

/-- C4: for every device on which `pop_rx` first reads `data_rx_valid_o`
asserted at a check with budget remaining (after `k < 2000` advances), the
returned word is `data_rx_o` as it stood at that check, whatever it shows
later; the call then advances exactly one more cycle, returns with
`data_rx_ready_i = 0`, and leaves both tallies unchanged. -/
theorem pop_rx_captures_then_advances (dev : Device σ) (s : TB σ) (k : Nat)
    (hk : k < 2000)
    (hbefore : ∀ j, j < k → rx_valid_poll dev s j = 0)
    (hat : rx_valid_poll dev s k ≠ 0) :
    (pop_rx dev s).1 = dev.data_rx_o (tick dev k (rx_ready_set s)).dut
    ∧ (pop_rx dev s).2 = rx_ready_clear (tick dev 1 (tick dev k (rx_ready_set s)))
    ∧ (pop_rx dev s).2.inputs.data_rx_ready_i = 0
    ∧ (pop_rx dev s).2.test_fail = s.test_fail
    ∧ (pop_rx dev s).2.test_pass = s.test_pass
    ∧ (pop_rx dev s).2.sim_time = s.sim_time + 2 * k + 2 := by
  obtain ⟨h1, h2⟩ := pop_rx_valid_early dev s k hk hbefore hat
  rw [h2, tick_natCast, tick_one]
  refine ⟨h1, rfl, ?_, ?_, ?_, ?_⟩
  · rw [rx_ready_clear_ready]
  · rw [rx_ready_clear_test_fail, cycle_test_fail, tick_loop_test_fail,
      rx_ready_set_test_fail]
  · rw [rx_ready_clear_test_pass, cycle_test_pass, tick_loop_test_pass,
      rx_ready_set_test_pass]
  · rw [rx_ready_clear_sim_time, cycle_sim_time, tick_loop_sim_time,
      rx_ready_set_sim_time]

/-- C4, witness: the counting device asserts valid from its 4th evaluation,
so the check after 2 advances reads it; the word returned is the 4 shown
then, while `data_rx_o` shows 6 after the extra cycle. -/
theorem pop_rx_captures_then_advances_witness :
    ((pop_rx (dev_counting 0 0 4) (tb_start inputs_zero 0)).1
        = (dev_counting 0 0 4).data_rx_o
            (tick (dev_counting 0 0 4) (2 : Nat) (rx_ready_set (tb_start inputs_zero 0))).dut
    ∧ (pop_rx (dev_counting 0 0 4) (tb_start inputs_zero 0)).2
        = rx_ready_clear (tick (dev_counting 0 0 4) 1
            (tick (dev_counting 0 0 4) (2 : Nat) (rx_ready_set (tb_start inputs_zero 0))))
    ∧ (pop_rx (dev_counting 0 0 4) (tb_start inputs_zero 0)).2.inputs.data_rx_ready_i = 0
    ∧ (pop_rx (dev_counting 0 0 4) (tb_start inputs_zero 0)).2.test_fail
        = (tb_start inputs_zero (0 : Nat)).test_fail
    ∧ (pop_rx (dev_counting 0 0 4) (tb_start inputs_zero 0)).2.test_pass
        = (tb_start inputs_zero (0 : Nat)).test_pass
    ∧ (pop_rx (dev_counting 0 0 4) (tb_start inputs_zero 0)).2.sim_time
        = (tb_start inputs_zero (0 : Nat)).sim_time + 2 * 2 + 2)
    ∧ (pop_rx (dev_counting 0 0 4) (tb_start inputs_zero 0)).1 = 4
    ∧ (dev_counting 0 0 4).data_rx_o
        (pop_rx (dev_counting 0 0 4) (tb_start inputs_zero 0)).2.dut = 6 :=
  ⟨pop_rx_captures_then_advances (dev_counting 0 0 4) (tb_start inputs_zero 0) 2
    (by decide) (by decide) (by decide), by decide, by decide⟩

/-! ## C6: the transmit channel -/

/-- C6: for every device and every data word, `push_tx` polls for some
`k <= 1000` cycles (`k` is the first check that reads `data_tx_ready_o`
asserted, or the whole budget of 1000), and whichever way the loop ended it
then advances exactly one more cycle and deasserts valid.  Every sample the
call records, one per device evaluation, shows `data_tx_i` equal to the
offered word and `data_tx_valid_i = 1`; the call returns with
`data_tx_valid_i = 0` and with `test_pass` and `test_fail` unchanged. -/
theorem push_tx_holds_offer_then_releases (dev : Device σ) (data : Nat) (s : TB σ) :
    ∃ k, k ≤ 1000
      ∧ (∀ j, j < k → tx_ready_poll dev data s j = 0)
      ∧ (k < 1000 → tx_ready_poll dev data s k ≠ 0)
      ∧ push_tx dev data s = tx_valid_clear (tick dev 1 (tick dev k (tx_offer data s)))
      ∧ (∃ new : List (Sample σ),
          (push_tx dev data s).trace = s.trace ++ new
          ∧ new.length = 2 * (k + 1)
          ∧ ∀ x ∈ new, x.inputs.data_tx_i = data ∧ x.inputs.data_tx_valid_i = 1)
      ∧ (push_tx dev data s).inputs.data_tx_valid_i = 0
      ∧ (push_tx dev data s).test_pass = s.test_pass
      ∧ (push_tx dev data s).test_fail = s.test_fail
      ∧ (push_tx dev data s).sim_time = s.sim_time + 2 * (k + 1) := by
  obtain ⟨k, hk, hbefore, hat, heq⟩ := push_tx_loop_cycles dev 1000 (tx_offer data s)
  have hpush : push_tx dev data s
      = tx_valid_clear (tick_loop dev (k + 1) (tx_offer data s)) := by
    rw [push_tx_eq, heq, tick_loop_succ_last]
  refine ⟨k, hk, ?_, ?_, ?_, ?_, ?_, ?_, ?_, ?_⟩
  · intro j hj
    rw [tx_ready_poll_eq]
    exact hbefore j hj
  · intro hlt
    rw [tx_ready_poll_eq]
    exact hat hlt
  · rw [push_tx_eq, heq, tick_natCast, tick_one]
  · refine ⟨tick_samples dev (k + 1) (tx_offer data s), ?_, ?_, ?_⟩
    · rw [hpush]
      show (tick_loop dev (k + 1) (tx_offer data s)).trace = _
      rw [tick_loop_trace_samples]
      rfl
    · exact tick_samples_length dev (k + 1) _
    · intro x hx
      exact tick_samples_tx_pins dev (k + 1) (tx_offer data s) x hx
  · rw [hpush]; rfl
  · rw [hpush]
    show (tick_loop dev (k + 1) (tx_offer data s)).test_pass = _
    rw [tick_loop_test_pass]; rfl
  · rw [hpush]
    show (tick_loop dev (k + 1) (tx_offer data s)).test_fail = _
    rw [tick_loop_test_fail]; rfl
  · rw [hpush]
    show (tick_loop dev (k + 1) (tx_offer data s)).sim_time = _
    rw [tick_loop_sim_time]; rfl

/-! ## C7: the result oracle -/

/-- C7: for every pair of values, `check` and `check_bool` compare by exact
equality and move exactly one tally by exactly one: `test_pass` grows by 1
and `test_fail` stays when the values are equal, `test_fail` grows by 1 and
`test_pass` stays when they differ.  After any sequence of `m` calls
`test_pass + test_fail` has grown by exactly `m`: `test_pass` by the number
of matching calls and `test_fail` by the number of mismatching ones, wherever
in the sequence the mismatches are. -/
theorem check_moves_exactly_one_tally (got expected : Nat) (bgot bexpected : Bool)
    (cs : List CheckCall) (s : TB σ) :
    (check got expected s).test_pass = s.test_pass + (if got = expected then 1 else 0)
    ∧ (check got expected s).test_fail = s.test_fail + (if got = expected then 0 else 1)
    ∧ (check_bool bgot bexpected s).test_pass
        = s.test_pass + (if bgot = bexpected then 1 else 0)
    ∧ (check_bool bgot bexpected s).test_fail
        = s.test_fail + (if bgot = bexpected then 0 else 1)
    ∧ (run_checks cs s).test_pass + (run_checks cs s).test_fail
        = s.test_pass + s.test_fail + cs.length
    ∧ (run_checks cs s).test_pass
        = s.test_pass + (cs.filter (fun c => c.isMatch)).length
    ∧ (run_checks cs s).test_fail
        = s.test_fail + (cs.filter (fun c => !c.isMatch)).length := by
  refine ⟨check_test_pass _ _ _, check_test_fail _ _ _, check_bool_test_pass _ _ _,
    check_bool_test_fail _ _ _, ?_, run_checks_test_pass _ _, run_checks_test_fail _ _⟩
  rw [run_checks_test_pass, run_checks_test_fail]
  have h := filter_match_add_filter_mismatch cs
  have h2 : ((cs.filter (fun c => c.isMatch)).length : Int)
      + ((cs.filter (fun c => !c.isMatch)).length : Int) = (cs.length : Int) := by
    exact_mod_cast h
  linarith

/-! ## C9: the strobe helpers -/

/-- C9: for every device, `start_transfer` evaluates the device exactly twice,
the low and the high half of one cycle, both with `start_i = 1` and all other
pins as they were, and returns after that one cycle with `start_i = 0`;
`clear_status` evaluates it exactly six times, the two halves of one cycle
with `clr_status_i = 1` and then the four halves of two cycles with
`clr_status_i = 0`, and returns after those three cycles with
`clr_status_i = 0`.  On return every pin other than the strobed one and `clk`
is as before, and so are both tallies.  The sequence of TEST 14 (assert,
`tick(1)`, deassert, `tick(2)`) is `clear_status`. -/
theorem strobes_last_exactly_one_cycle (dev : Device σ) (s : TB σ) :
    (start_transfer dev s).trace = s.trace ++
        eval_chain dev
          [ { s.inputs with start_i := 1, clk := 0 },
            { s.inputs with start_i := 1, clk := 1 } ] s.sim_time s.dut
    ∧ (start_transfer dev s).inputs = { s.inputs with start_i := 0, clk := 1 }
    ∧ (start_transfer dev s).sim_time = s.sim_time + 2
    ∧ (start_transfer dev s).test_pass = s.test_pass
    ∧ (start_transfer dev s).test_fail = s.test_fail
    ∧ (clear_status dev s).trace = s.trace ++
        eval_chain dev
          [ { s.inputs with clr_status_i := 1, clk := 0 },
            { s.inputs with clr_status_i := 1, clk := 1 },
            { s.inputs with clr_status_i := 0, clk := 0 },
            { s.inputs with clr_status_i := 0, clk := 1 },
            { s.inputs with clr_status_i := 0, clk := 0 },
            { s.inputs with clr_status_i := 0, clk := 1 } ] s.sim_time s.dut
    ∧ (clear_status dev s).inputs = { s.inputs with clr_status_i := 0, clk := 1 }
    ∧ (clear_status dev s).sim_time = s.sim_time + 6
    ∧ (clear_status dev s).test_pass = s.test_pass
    ∧ (clear_status dev s).test_fail = s.test_fail
    ∧ tick dev 2 (set_inputs { (tick dev 1
          (set_inputs { s.inputs with clr_status_i := 1 } s)).inputs with clr_status_i := 0 }
          (tick dev 1 (set_inputs { s.inputs with clr_status_i := 1 } s)))
        = clear_status dev s := by
  refine ⟨?_, rfl, rfl, rfl, rfl, ?_, rfl, rfl, rfl, rfl, rfl⟩
  · simp [start_transfer, cycle, set_inputs, eval_chain]
  · simp [clear_status, cycle, set_inputs, eval_chain]

/-! ## C8: the exit code -/

/-- C8: for every run, that is every finite sequence of harness operations
performed from the start state (`test_fail = 0`), the run completes when no
`wait_status` budget is negative, and whenever it completes `test_fail` is
the number of failures recorded, mismatching checks and status-wait timeouts,
hence never negative; the exit code computed at the end of `main` is 0 if
`test_fail` is zero and 1 otherwise, so it is 0 exactly when no failure was
recorded. -/
theorem exit_code_zero_iff_no_failure (dev : Device σ) (ops : List Op)
    (i : Inputs) (d : σ) :
    ((∀ op ∈ ops, budget_ok op = true) → (run dev ops (tb_start i d)).isSome = true)
    ∧ ∀ r, run dev ops (tb_start i d) = some r →
        0 ≤ r.test_fail
        ∧ r.test_fail = failures dev ops (tb_start i d)
        ∧ main_exit_code dev r = (if r.test_fail = 0 then 0 else 1)
        ∧ (main_exit_code dev r = 0 ↔ failures dev ops (tb_start i d) = 0) := by
  refine ⟨run_isSome_of_budget_ok dev ops _, ?_⟩
  intro r hr
  have hf : r.test_fail = failures dev ops (tb_start i d) := by
    rw [run_test_fail dev ops _ r hr]
    simp [tb_start]
  have hexit : main_exit_code dev r = (if r.test_fail = 0 then 0 else 1) := by
    simp only [main_exit_code, tick_test_fail]
    rw [hf]
    by_cases h0 : failures dev ops (tb_start i d) = 0
    · simp [h0]
    · have hpos : (0 : Int) < (failures dev ops (tb_start i d) : Int) := by
        exact_mod_cast Nat.pos_of_ne_zero h0
      have hne : ((failures dev ops (tb_start i d) : Nat) : Int) ≠ 0 := by omega
      simp [hpos, hne]
  refine ⟨by rw [hf]; exact Int.natCast_nonneg _, hf, hexit, ?_⟩
  rw [hexit, hf]
  by_cases h0 : failures dev ops (tb_start i d) = 0
  · simp [h0]
  · have hne : ((failures dev ops (tb_start i d) : Nat) : Int) ≠ 0 := by
      exact_mod_cast h0
    simp [h0, hne]

/-- C8, witness: a run on the counting device whose status wait succeeds in
its first cycle and whose check matches: it completes and exits with 0. -/
theorem exit_code_zero_iff_no_failure_witness :
    (run (dev_counting 3 0 0) [Op.start_transfer, Op.wait_status 2, Op.check 7 7]
        (tb_start inputs_zero 0)).isSome = true
    ∧ ∃ r, run (dev_counting 3 0 0) [Op.start_transfer, Op.wait_status 2, Op.check 7 7]
          (tb_start inputs_zero 0) = some r
        ∧ 0 ≤ r.test_fail
        ∧ r.test_fail = failures (dev_counting 3 0 0)
            [Op.start_transfer, Op.wait_status 2, Op.check 7 7] (tb_start inputs_zero 0)
        ∧ main_exit_code (dev_counting 3 0 0) r = (if r.test_fail = 0 then 0 else 1)
        ∧ (main_exit_code (dev_counting 3 0 0) r = 0 ↔
            failures (dev_counting 3 0 0)
              [Op.start_transfer, Op.wait_status 2, Op.check 7 7]
              (tb_start inputs_zero 0) = 0)
        ∧ main_exit_code (dev_counting 3 0 0) r = 0 := by
  obtain ⟨h1, h2⟩ := exit_code_zero_iff_no_failure (dev_counting 3 0 0)
    [Op.start_transfer, Op.wait_status 2, Op.check 7 7] inputs_zero 0
  have hs := h1 (by decide)
  obtain ⟨r, hr⟩ := Option.isSome_iff_exists.mp hs
  obtain ⟨g1, g2, g3, g4⟩ := h2 r hr
  exact ⟨hs, r, hr, g1, g2, g3, g4, g4.mpr (by decide)⟩

/-! ## C10: the timestamps of the trace -/

/-- C10: for every finite sequence of harness operations run from any state,
with `sim_time = t0` there, the run completes when no `wait_status` budget is
negative, and whenever it completes the samples it has appended to the trace
carry the timestamps `t0, t0 + 1, t0 + 2, ...` in order, without repeat or
gap, and `sim_time` is `t0` plus the number of samples appended, so it has
not decreased. -/
theorem trace_timestamps_consecutive (dev : Device σ) (ops : List Op) (s : TB σ) :
    ((∀ op ∈ ops, budget_ok op = true) → (run dev ops s).isSome = true)
    ∧ ∀ r, run dev ops s = some r →
        ∃ new : List (Sample σ),
          r.trace = s.trace ++ new
          ∧ new.map Sample.time = List.range' s.sim_time new.length
          ∧ r.sim_time = s.sim_time + new.length
          ∧ s.sim_time ≤ r.sim_time := by
  refine ⟨run_isSome_of_budget_ok dev ops s, ?_⟩
  intro r hr
  obtain ⟨new, h1, h2, h3⟩ := stamped_from_run dev ops s r hr
  exact ⟨new, h1, h2, h3, by omega⟩

/-- C10, witness: a run of all six primitives on the counting device
completes, and the samples it appends are stamped consecutively from the
starting `sim_time`. -/
theorem trace_timestamps_consecutive_witness :
    (run (dev_counting 9 4 16)
        [Op.tick 1, Op.start_transfer, Op.wait_status 3, Op.clear_status,
          Op.push_tx 5, Op.pop_rx] (tb_start inputs_zero 0)).isSome = true
    ∧ ∃ r, run (dev_counting 9 4 16)
          [Op.tick 1, Op.start_transfer, Op.wait_status 3, Op.clear_status,
            Op.push_tx 5, Op.pop_rx] (tb_start inputs_zero 0) = some r
        ∧ ∃ new : List (Sample Nat),
            r.trace = (tb_start inputs_zero 0).trace ++ new
            ∧ new.map Sample.time
                = List.range' (tb_start inputs_zero (0 : Nat)).sim_time new.length
            ∧ r.sim_time = (tb_start inputs_zero (0 : Nat)).sim_time + new.length
            ∧ (tb_start inputs_zero (0 : Nat)).sim_time ≤ r.sim_time := by
  obtain ⟨h1, h2⟩ := trace_timestamps_consecutive (dev_counting 9 4 16)
    [Op.tick 1, Op.start_transfer, Op.wait_status 3, Op.clear_status,
      Op.push_tx 5, Op.pop_rx] (tb_start inputs_zero 0)
  have hs := h1 (by decide)
  obtain ⟨r, hr⟩ := Option.isSome_iff_exists.mp hs
  exact ⟨hs, r, hr, h2 r hr⟩

/-! ## Facts about the number of cycles an operation advances -/

/-- The loop of `wait_status` is a run of at most `T` cycles, followed on
timeout by the count of one failure. -/
theorem wait_status_loop_cycles (dev : Device σ) (T : Nat) (s : TB σ) :
    ∃ n, n ≤ T
      ∧ (wait_status_loop dev T s = tick_loop dev n s
          ∨ wait_status_loop dev T s
              = { tick_loop dev n s with test_fail := s.test_fail + 1 }) := by
  induction T generalizing s with
  | zero => exact ⟨0, le_refl _, Or.inr rfl⟩
  | succ T ih =>
    by_cases hs : dev.status_o (clk_phase dev 0 s).dut = 0
    · have hrec : wait_status_loop dev (T + 1) s = wait_status_loop dev T (cycle dev s) := by
        simp only [wait_status_loop, hs, ne_eq, not_true_eq_false, if_false]
        rfl
      obtain ⟨n, hn, h⟩ := ih (cycle dev s)
      refine ⟨n + 1, by omega, ?_⟩
      rw [hrec, tick_loop_succ]
      exact h
    · have hret : wait_status_loop dev (T + 1) s = cycle dev s := by
        simp only [wait_status_loop, hs, ne_eq, not_false_eq_true, if_true]
        rfl
      exact ⟨1, by omega, Or.inl hret⟩

/-- The polling loop of `pop_rx` is a run of `k` cycles; it leaves
`timeout = t - k`, or `-1` after the whole budget. -/
theorem pop_rx_loop_cycles (dev : Device σ) (t : Nat) (s : TB σ) :
    ∃ k, k ≤ t
      ∧ (pop_rx_loop dev t s = ((t : Int) - k, tick_loop dev k s)
          ∨ (k = t ∧ pop_rx_loop dev t s = (-1, tick_loop dev t s))) := by
  induction t generalizing s with
  | zero =>
    by_cases h : dev.data_rx_valid_o s.dut = 0
    · exact ⟨0, le_refl _, Or.inr ⟨rfl, by simp [pop_rx_loop, h, tick_loop]⟩⟩
    · exact ⟨0, le_refl _, Or.inl (by simp [pop_rx_loop, h, tick_loop])⟩
  | succ t ih =>
    by_cases h : dev.data_rx_valid_o s.dut = 0
    · have hrec : pop_rx_loop dev (t + 1) s = pop_rx_loop dev t (cycle dev s) := by
        simp [pop_rx_loop, h]
      obtain ⟨k, hk, hcase⟩ := ih (cycle dev s)
      refine ⟨k + 1, by omega, ?_⟩
      rw [hrec, tick_loop_succ, tick_loop_succ]
      rcases hcase with hfound | ⟨hkt, hnever⟩
      · left
        rw [hfound]
        congr 1
        push_cast
        ring
      · right
        exact ⟨by omega, hnever⟩
    · exact ⟨0, by omega, Or.inl (by simp [pop_rx_loop, h, tick_loop])⟩

/-- The call `pop_rx` advances at most 2000 cycles in all. -/
theorem pop_rx_cycles (dev : Device σ) (s : TB σ) :
    ∃ n, n ≤ 2000 ∧ (pop_rx dev s).2 = rx_ready_clear (tick_loop dev n (rx_ready_set s)) := by
  obtain ⟨k, hk, hcase⟩ := pop_rx_loop_cycles dev 2000 (rx_ready_set s)
  rcases hcase with hfound | ⟨-, hnever⟩
  · by_cases hc : ((2000 : Nat) : Int) - (k : Int) ≤ 0
    · exact ⟨k, hk, (pop_rx_of_loop_le dev s _ _ hfound hc).2⟩
    · refine ⟨k + 1, by omega, ?_⟩
      rw [tick_loop_succ_last]
      exact (pop_rx_of_loop_pos dev s _ _ hfound (by omega)).2
  · exact ⟨2000, le_refl _, (pop_rx_of_loop_le dev s (-1) _ hnever (by omega)).2⟩

/-- The call `push_tx` advances at least one and at most 1001 cycles. -/
theorem push_tx_cycles (dev : Device σ) (data : Nat) (s : TB σ) :
    ∃ n, 1 ≤ n ∧ n ≤ 1001
      ∧ push_tx dev data s = tx_valid_clear (tick_loop dev n (tx_offer data s)) := by
  obtain ⟨k, hk, -, -, heq⟩ := push_tx_loop_cycles dev 1000 (tx_offer data s)
  refine ⟨k + 1, by omega, by omega, ?_⟩
  rw [push_tx_eq, heq, tick_loop_succ_last]

@[simp] theorem tx_valid_clear_sim_time (s : TB σ) :
    (tx_valid_clear s).sim_time = s.sim_time := rfl

@[simp] theorem tx_offer_sim_time (data : Nat) (s : TB σ) :
    (tx_offer data s).sim_time = s.sim_time := rfl

/-- Each operation with a budget that is not negative advances a whole number
of cycles within its bound. -/
theorem step_cycles (dev : Device σ) (op : Op) (s r : TB σ)
    (hb : budget_ok op = true) (h : step dev op s = some r) :
    ∃ m, m ≤ cycle_bound op ∧ r.sim_time = s.sim_time + 2 * m := by
  cases op with
  | assign i => exact ⟨0, le_refl _, by rw [← Option.some.inj h]; rfl⟩
  | tick n =>
    refine ⟨n.toNat, le_refl _, ?_⟩
    rw [← Option.some.inj h]
    exact tick_loop_sim_time dev n.toNat s
  | wait_status T =>
    have hT : 0 ≤ T := by simpa [budget_ok] using hb
    have hw : wait_status dev T s = some (wait_status_loop dev T.toNat s) := by
      simp [wait_status, hT]
    have h2 : some (wait_status_loop dev T.toNat s) = some r := by
      rw [← hw]; exact h
    obtain ⟨n, hn, hcase⟩ := wait_status_loop_cycles dev T.toNat s
    refine ⟨n, hn, ?_⟩
    rw [← Option.some.inj h2]
    rcases hcase with hc | hc
    · rw [hc, tick_loop_sim_time]
    · rw [hc]
      exact tick_loop_sim_time dev n s
  | clear_status => exact ⟨3, le_refl _, by rw [← Option.some.inj h]; rfl⟩
  | start_transfer => exact ⟨1, le_refl _, by rw [← Option.some.inj h]; rfl⟩
  | push_tx data =>
    obtain ⟨n, -, hn, heq⟩ := push_tx_cycles dev data s
    refine ⟨n, hn, ?_⟩
    rw [← Option.some.inj h, heq, tx_valid_clear_sim_time, tick_loop_sim_time,
      tx_offer_sim_time]
  | pop_rx =>
    obtain ⟨n, hn, heq⟩ := pop_rx_cycles dev s
    refine ⟨n, hn, ?_⟩
    rw [← Option.some.inj h, heq, rx_ready_clear_sim_time, tick_loop_sim_time,
      rx_ready_set_sim_time]
  | check got expected =>
    refine ⟨0, le_refl _, ?_⟩
    rw [← Option.some.inj h]
    by_cases hg : got = expected <;> simp [check, hg]
  | check_bool got expected =>
    refine ⟨0, le_refl _, ?_⟩
    rw [← Option.some.inj h]
    by_cases hg : got = expected <;> simp [check_bool, hg]

/-- A run whose budgets are not negative completes within the sum of the
cycle bounds of its operations. -/
theorem run_cycles (dev : Device σ) (ops : List Op) (s : TB σ)
    (hb : ∀ op ∈ ops, budget_ok op = true) :
    ∃ r m, run dev ops s = some r ∧ m ≤ run_cycle_bound ops
      ∧ r.sim_time = s.sim_time + 2 * m := by
  induction ops generalizing s with
  | nil => exact ⟨s, 0, rfl, le_refl _, rfl⟩
  | cons op ops ih =>
    have hop : budget_ok op = true := hb op (List.mem_cons_self _ _)
    obtain ⟨mid, hmid⟩ := Option.isSome_iff_exists.mp (step_isSome_of_budget_ok dev op s hop)
    obtain ⟨m1, hm1, ht1⟩ := step_cycles dev op s mid hop hmid
    obtain ⟨r, m2, hr, hm2, ht2⟩ := ih mid (fun o ho => hb o (List.mem_cons_of_mem _ ho))
    refine ⟨r, m1 + m2, ?_, ?_, ?_⟩
    · rw [run, hmid]
      exact hr
    · rw [run_cycle_bound]
      omega
    · rw [ht2, ht1]
      ring

/-! ## C11: bounded termination of the blocking primitives -/

/-- C11: for every device, whatever its outputs do, each blocking primitive
returns after a number of clock cycles bounded by its attempt budget:
`wait_status` with budget `T >= 0` returns after `n <= T` cycles, `push_tx`
after `n` cycles with `1 <= n <= 1001`, and `pop_rx` after `n <= 2000`
cycles.  Hence every run whose `wait_status` budgets are not negative
completes, timeouts included, after at most the sum of the cycle bounds of
its operations, so the final tally is always reached. -/
theorem blocking_primitives_terminate (dev : Device σ) (T data : Nat) (s : TB σ)
    (ops : List Op) :
    (∃ (n : Nat) (r : TB σ), n ≤ T ∧ wait_status dev T s = some r
        ∧ r.sim_time = s.sim_time + 2 * n
        ∧ r.trace = (tick dev n s).trace
        ∧ r.dut = (tick dev n s).dut)
    ∧ (∃ n : Nat, 1 ≤ n ∧ n ≤ 1001
        ∧ push_tx dev data s = tx_valid_clear (tick dev n (tx_offer data s))
        ∧ (push_tx dev data s).sim_time = s.sim_time + 2 * n)
    ∧ (∃ n : Nat, n ≤ 2000
        ∧ (pop_rx dev s).2 = rx_ready_clear (tick dev n (rx_ready_set s))
        ∧ (pop_rx dev s).2.sim_time = s.sim_time + 2 * n)
    ∧ ((∀ op ∈ ops, budget_ok op = true) →
        ∃ (r : TB σ) (m : Nat), run dev ops s = some r ∧ m ≤ run_cycle_bound ops
          ∧ r.sim_time = s.sim_time + 2 * m) := by
  refine ⟨?_, ?_, ?_, run_cycles dev ops s⟩
  · obtain ⟨n, hn, hcase⟩ := wait_status_loop_cycles dev T s
    refine ⟨n, wait_status_loop dev T s, hn, wait_status_natCast dev T s, ?_⟩
    rw [tick_natCast]
    rcases hcase with hc | hc
    · rw [hc]
      exact ⟨tick_loop_sim_time dev n s, rfl, rfl⟩
    · rw [hc]
      exact ⟨tick_loop_sim_time dev n s, rfl, rfl⟩
  · obtain ⟨n, h1, hn, heq⟩ := push_tx_cycles dev data s
    refine ⟨n, h1, hn, ?_, ?_⟩
    · rw [tick_natCast]
      exact heq
    · rw [heq, tx_valid_clear_sim_time, tick_loop_sim_time, tx_offer_sim_time]
  · obtain ⟨n, hn, heq⟩ := pop_rx_cycles dev s
    refine ⟨n, hn, ?_, ?_⟩
    · rw [tick_natCast]
      exact heq
    · rw [heq, rx_ready_clear_sim_time, tick_loop_sim_time, rx_ready_set_sim_time]

/-- C11, witness: on the silent device, which never asserts `status_o`,
`data_tx_ready_o` or `data_rx_valid_o`, a run of the three blocking
primitives followed by a check completes within the sum of the budgets. -/
theorem blocking_primitives_terminate_witness :
    (∀ op ∈ [Op.wait_status 5, Op.push_tx 7, Op.pop_rx, Op.check 0xDEAD0000 1],
        budget_ok op = true)
    ∧ ∃ r m, run dev_silent [Op.wait_status 5, Op.push_tx 7, Op.pop_rx, Op.check 0xDEAD0000 1]
          (tb_start inputs_zero ()) = some r
        ∧ m ≤ run_cycle_bound [Op.wait_status 5, Op.push_tx 7, Op.pop_rx, Op.check 0xDEAD0000 1]
        ∧ r.sim_time = (tb_start inputs_zero ()).sim_time + 2 * m :=
  ⟨by decide,
   (blocking_primitives_terminate dev_silent 5 7 (tb_start inputs_zero ())
      [Op.wait_status 5, Op.push_tx 7, Op.pop_rx, Op.check 0xDEAD0000 1]).2.2.2 (by decide)⟩

/-! ## Facts about the first cycle that shows the status -/

/-- A successful search in `a, a + 1, ..., a + n - 1` returns the first
element that satisfies the test. -/
theorem find_range_some (p : Nat → Bool) (a n k : Nat)
    (h : (List.range' a n).find? p = some k) :
    a ≤ k ∧ k < a + n ∧ p k = true ∧ ∀ j, a ≤ j → j < k → p j = false := by
  induction n generalizing a with
  | zero => simp at h
  | succ n ih =>
    rw [List.range'_succ] at h
    by_cases hp : p a = true
    · rw [List.find?_cons_of_pos _ hp] at h
      obtain rfl : a = k := Option.some.inj h
      exact ⟨le_refl _, by omega, hp, fun j h1 h2 => absurd h1 (by omega)⟩
    · rw [List.find?_cons_of_neg _ hp] at h
      obtain ⟨h1, h2, h3, h4⟩ := ih (a + 1) h
      refine ⟨by omega, by omega, h3, ?_⟩
      intro j hj1 hj2
      by_cases hja : j = a
      · rw [hja]
        simpa using hp
      · exact h4 j (by omega) hj2

/-- A failed search in `a, a + 1, ..., a + n - 1` means no element satisfies
the test. -/
theorem find_range_none (p : Nat → Bool) (a n : Nat)
    (h : (List.range' a n).find? p = none) :
    ∀ k, a ≤ k → k < a + n → p k = false := by
  induction n generalizing a with
  | zero => intro k h1 h2; omega
  | succ n ih =>
    rw [List.range'_succ] at h
    by_cases hp : p a = true
    · rw [List.find?_cons_of_pos _ hp] at h
      exact absurd h (by simp)
    · rw [List.find?_cons_of_neg _ hp] at h
      intro k h1 h2
      by_cases hka : k = a
      · rw [hka]
        simpa using hp
      · exact ih (a + 1) h k (by omega) (by omega)

theorem first_status_cycle_some (dev : Device σ) (T : Nat) (s : TB σ) (k : Nat)
    (h : first_status_cycle dev T s = some k) :
    1 ≤ k ∧ k ≤ T ∧ status_low dev s k ≠ 0
      ∧ ∀ j, 1 ≤ j → j < k → status_low dev s j = 0 := by
  obtain ⟨h1, h2, h3, h4⟩ := find_range_some _ 1 T k h
  refine ⟨h1, by omega, of_decide_eq_true h3, ?_⟩
  intro j hj1 hj2
  have h5 := of_decide_eq_false (h4 j hj1 hj2)
  exact not_not.mp h5

theorem first_status_cycle_none (dev : Device σ) (T : Nat) (s : TB σ)
    (h : first_status_cycle dev T s = none) :
    ∀ k, 1 ≤ k → k ≤ T → status_low dev s k = 0 := by
  intro k h1 h2
  have h5 := of_decide_eq_false (find_range_none _ 1 T h k h1 (by omega))
  exact not_not.mp h5

/-- The wait returns what `tick(k)` leaves when cycle `k` is the first to show
the status. -/
theorem wait_status_found (dev : Device σ) (T k : Nat) (s : TB σ)
    (hk1 : 1 ≤ k) (hkT : k ≤ T) (hk : status_low dev s k ≠ 0)
    (hfirst : ∀ j, 1 ≤ j → j < k → status_low dev s j = 0) :
    wait_status dev T s = some (tick dev k s) := by
  obtain ⟨i, rfl⟩ : ∃ i, k = i + 1 := ⟨k - 1, by omega⟩
  rw [wait_status_natCast, tick_natCast]
  congr 1
  apply wait_status_loop_found dev T i s (by omega)
  · intro j hj
    rw [← status_low_succ]
    exact hfirst (j + 1) (by omega) (by omega)
  · rw [← status_low_succ]
    exact hk

/-- The wait returns what `tick(T)` leaves, with one failure counted, when no
cycle shows the status. -/
theorem wait_status_never (dev : Device σ) (T : Nat) (s : TB σ)
    (h : ∀ k, 1 ≤ k → k ≤ T → status_low dev s k = 0) :
    wait_status dev T s = some { tick dev T s with test_fail := s.test_fail + 1 } := by
  rw [wait_status_natCast, tick_natCast]
  congr 1
  apply wait_status_loop_timeout
  intro j hj
  rw [← status_low_succ]
  exact h (j + 1) (by omega) (by omega)

/-- After at least one cycle the clock line is high. -/
theorem tick_loop_clk (dev : Device σ) (n : Nat) (s : TB σ) (hn : 1 ≤ n) :
    (tick_loop dev n s).inputs.clk = 1 := by
  obtain ⟨i, rfl⟩ : ∃ i, n = i + 1 := ⟨n - 1, by omega⟩
  rw [tick_loop_succ_last]
  rfl

theorem tick_loop_trace_length (dev : Device σ) (n : Nat) (s : TB σ) :
    (tick_loop dev n s).trace.length = s.trace.length + 2 * n := by
  rw [tick_loop_trace_samples, List.length_append, tick_samples_length]

theorem polling_iterations_some (dev : Device σ) (T : Nat) (s : TB σ) (k : Nat)
    (h : first_status_cycle dev T s = some k) : polling_iterations dev T s = k := by
  simp [polling_iterations, h]

theorem polling_iterations_none (dev : Device σ) (T : Nat) (s : TB σ)
    (h : first_status_cycle dev T s = none) : polling_iterations dev T s = T := by
  simp [polling_iterations, h]

theorem wait_status_spec_some (dev : Device σ) (T : Nat) (s : TB σ) (k : Nat)
    (h : first_status_cycle dev T s = some k) :
    wait_status_spec dev T s = tick dev k s := by
  simp only [wait_status_spec, h]

theorem wait_status_spec_none (dev : Device σ) (T : Nat) (s : TB σ)
    (h : first_status_cycle dev T s = none) :
    wait_status_spec dev T s = { tick dev T s with test_fail := s.test_fail + 1 } := by
  simp only [wait_status_spec, h]

/-! ## C12: the status wait as a run of the clock driver -/

/-- C12: for every device and every budget `T >= 0`, `wait_status` returns
the state of its specification `wait_status_spec`: with `k` the number of
polling iterations (the index of the first cycle whose low phase shows
`status_o` asserted, or `T` on timeout), the device state, all pins with the
clock line, `sim_time`, the trace and `test_pass` are exactly as `tick(k)`
leaves them from the same start state, and `test_fail` is as `tick(k)` leaves
it plus one on timeout.  The call has performed `2k` half-cycles, and the
clock line is high on return whenever `k >= 1`. -/
theorem wait_status_refines_tick (dev : Device σ) (T : Nat) (s : TB σ) :
    ∃ r : TB σ, wait_status dev T s = some r
      ∧ r = wait_status_spec dev T s
      ∧ polling_iterations dev T s ≤ T
      ∧ (∀ k, first_status_cycle dev T s = some k →
          polling_iterations dev T s = k ∧ 1 ≤ k ∧ k ≤ T ∧ status_low dev s k ≠ 0
            ∧ ∀ j, 1 ≤ j → j < k → status_low dev s j = 0)
      ∧ (first_status_cycle dev T s = none →
          polling_iterations dev T s = T ∧ ∀ k, 1 ≤ k → k ≤ T → status_low dev s k = 0)
      ∧ r.dut = (tick dev (polling_iterations dev T s) s).dut
      ∧ r.inputs = (tick dev (polling_iterations dev T s) s).inputs
      ∧ r.sim_time = (tick dev (polling_iterations dev T s) s).sim_time
      ∧ r.trace = (tick dev (polling_iterations dev T s) s).trace
      ∧ r.test_pass = (tick dev (polling_iterations dev T s) s).test_pass
      ∧ r.test_fail = (tick dev (polling_iterations dev T s) s).test_fail
          + (if (first_status_cycle dev T s).isSome then 0 else 1)
      ∧ r.sim_time = s.sim_time + 2 * polling_iterations dev T s
      ∧ r.trace.length = s.trace.length + 2 * polling_iterations dev T s
      ∧ (1 ≤ polling_iterations dev T s → r.inputs.clk = 1) := by
  cases h : first_status_cycle dev T s with
  | some k =>
    obtain ⟨hk1, hkT, hk, hfirst⟩ := first_status_cycle_some dev T s k h
    have hp := polling_iterations_some dev T s k h
    rw [hp, wait_status_spec_some dev T s k h, tick_natCast]
    refine ⟨tick_loop dev k s, ?_, rfl, hkT, ?_, ?_, rfl, rfl, rfl, rfl, rfl, ?_, ?_, ?_, ?_⟩
    · rw [← tick_natCast]
      exact wait_status_found dev T k s hk1 hkT hk hfirst
    · intro k2 hk2
      obtain rfl : k = k2 := Option.some.inj hk2
      exact ⟨rfl, hk1, hkT, hk, hfirst⟩
    · intro hnone
      exact absurd hnone (by simp)
    · simp
    · exact tick_loop_sim_time dev k s
    · exact tick_loop_trace_length dev k s
    · intro hge
      exact tick_loop_clk dev k s hge
  | none =>
    have hnever := first_status_cycle_none dev T s h
    have hp := polling_iterations_none dev T s h
    rw [hp, wait_status_spec_none dev T s h, tick_natCast]
    refine ⟨{ tick_loop dev T s with test_fail := s.test_fail + 1 }, ?_, rfl, le_refl _,
      ?_, ?_, rfl, rfl, rfl, rfl, rfl, ?_, ?_, ?_, ?_⟩
    · rw [← tick_natCast]
      exact wait_status_never dev T s hnever
    · intro k2 hk2
      exact absurd hk2 (by simp)
    · intro _
      exact ⟨rfl, hnever⟩
    · simp
    · exact tick_loop_sim_time dev T s
    · exact tick_loop_trace_length dev T s
    · intro hge
      exact tick_loop_clk dev T s hge

end TbTop
